import Mathlib

/-!
# NSRL lookup (`nsrl.go`): a shallow embedding

Byte strings (`[]byte` and Go `string`) are lists of natural numbers below 256.
Unsigned 64-bit arithmetic is arithmetic on `Nat` reduced modulo `2 ^ 64`.
Go `int` values that may be negative (`bytes.IndexAny`, the column index) are `Int`.

Library code that is not part of the repository is handled as follows.
* `io.Reader`: a reader is the finite script of the results of its `Read` calls;
  once the script is used up every further `Read` returns `0, io.EOF`.
* `encoding/csv`: the reader is the script of the results of its `Read` calls.
* `github.com/ip-rw/bloom` and `strconv.ParseFloat`: a record of functions (`Bloom`).
* `strings.ToLower`, `bytes.ToUpper`, `bytes.TrimSpace`: the ASCII paths are modelled
  byte by byte; on input holding a byte `>= 0x80` they consult the Unicode tables,
  which are a record of functions (`Unicode`).
* `bufio.Scanner` with `bufio.ScanLines`: standard input is the bytes it delivers before
  end-of-stream; the scanner cuts them at newlines, drops a final carriage return, and
  stops at the first line that does not fit its 64 KiB buffer.
* `encoding/json`, `logrus`: the printed JSON object is the `ResultsData` value it
  encodes; a warning is the line it reports.
-/

namespace Nsrl

/-! ## Basic types -/

/-- Byte strings. -/
abbrev Bytes := List Nat

/-- The bytes of an ASCII literal. -/
def ascii (s : String) : Bytes := s.data.map Char.toNat

/-- How a run of the program (or of one of its functions) ends. -/
inductive Exec (α : Type) where
  /-- normal return -/
  | ok (a : α)
  /-- `assert(err)` with a non-nil error: `log.Fatal`, the process exits -/
  | fatal (err : Nat)
  /-- run-time panic (index or slice bound out of range) -/
  | panic
  deriving DecidableEq, Repr

/-- Wrap-around of `uint64`. -/
def u64 (n : Nat) : Nat := n % 2 ^ 64

/-! ## Constants (lines 27-37) -/

def sha1 : Int := 0
def md5 : Int := 1
def crc32 : Int := 2
def fileName : Int := 3
def fileSize : Int := 4
def productCode : Int := 5
def opSystemCode : Int := 6
def specialCode : Int := 7

/-! ## `lineCounter` (lines 57-74) -/

/-- The error result of a `Read`. -/
inductive ReadErr where
  /-- `io.EOF` -/
  | eof
  /-- any other error -/
  | other (e : Nat)
  deriving DecidableEq, Repr

/-- One call `c, err := r.Read(buf)`: the bytes stored in `buf[:c]` and `err`. -/
structure ReadResult where
  data : Bytes
  err : Option ReadErr
  deriving DecidableEq, Repr

/-- The size of `buf`: `32*1024`. -/
def bufSize : Nat := 32 * 1024

/-- `bytes.Count(s, lineSep)` for the one-byte separator `lineSep = {sep}`. -/
def bytesCount (s : Bytes) (sep : Nat) : Nat := s.count sep

/-- The `for` loop of `lineCounter`, started with the running `count`. -/
def lineCounterLoop : List ReadResult → Nat → Exec (Nat × Option Nat)
  | [], count => .ok (count, none)
  | r :: rest, count =>
    -- `buf[:c]`
    if bufSize < r.data.length then .panic
    else
      let count := u64 (count + u64 (bytesCount r.data 10))
      match r.err with
      | some .eof => .ok (count, none)
      | some (.other e) => .ok (count, some e)
      | none => lineCounterLoop rest count

/-- `lineCounter(r)`: the count and the error (`none` is `nil`). -/
def lineCounter (r : List ReadResult) : Exec (Nat × Option Nat) :=
  lineCounterLoop r 0

/-- The reads `c, nil` of the chunks `cs`, in order. -/
def goodReads (cs : List Bytes) : List ReadResult := cs.map (fun d => ⟨d, none⟩)

/-! ## Case mapping and trimming (`strings.ToLower`, `bytes.ToUpper`, `bytes.TrimSpace`) -/

/-- What the Go library computes from the Unicode tables, on input that holds a byte
`>= utf8.RuneSelf`. -/
structure Unicode where
  /-- `strings.Map(unicode.ToLower, s)` -/
  mapToLower : Bytes → Bytes
  /-- `bytes.Map(unicode.ToUpper, s)` -/
  mapToUpper : Bytes → Bytes
  /-- `bytes.TrimFunc(s, unicode.IsSpace)` -/
  trimFuncIsSpace : Bytes → Bytes

/-- No byte is `>= utf8.RuneSelf` (0x80). -/
def isASCII (s : Bytes) : Bool := s.all (fun c => c < 128)

/-- ASCII lower-casing of one byte: `c += 'a' - 'A'` when `'A' <= c && c <= 'Z'`. -/
def lowerByte (c : Nat) : Nat := if 65 ≤ c ∧ c ≤ 90 then c + 32 else c

/-- ASCII upper-casing of one byte: `c -= 'a' - 'A'` when `'a' <= c && c <= 'z'`. -/
def upperByte (c : Nat) : Nat := if 97 ≤ c ∧ c ≤ 122 then c - 32 else c

/-- `strings.ToLower(s)`. -/
def stringsToLower (u : Unicode) (s : Bytes) : Bytes :=
  if isASCII s then s.map lowerByte else u.mapToLower s

/-- `bytes.ToUpper(s)`. -/
def bytesToUpper (u : Unicode) (s : Bytes) : Bytes :=
  if isASCII s then s.map upperByte else u.mapToUpper s

/-- The table `asciiSpace`: tab, newline, vertical tab, form feed, carriage return, space. -/
def asciiSpace (c : Nat) : Bool :=
  c == 9 || c == 10 || c == 11 || c == 12 || c == 13 || c == 32

/-- One scan of `bytes.TrimSpace` over the front of `s`: `Sum.inr` of what is left
after the leading ASCII space, or `Sum.inl` of what is left when a byte `>= 0x80`
is met first. -/
def trimScan : Bytes → Sum Bytes Bytes
  | [] => .inr []
  | c :: cs =>
    if 128 ≤ c then .inl (c :: cs)
    else if asciiSpace c then trimScan cs
    else .inr (c :: cs)

/-- `bytes.TrimSpace(s)`: a scan from the front, a scan from the back, and the
Unicode-aware `TrimFunc` on what is left as soon as a scan meets a byte `>= 0x80`. -/
def bytesTrimSpace (u : Unicode) (s : Bytes) : Bytes :=
  match trimScan s with
  | .inl rest => u.trimFuncIsSpace rest
  | .inr rest =>
    match trimScan rest.reverse with
    | .inl r => u.trimFuncIsSpace r.reverse
    | .inr r => r.reverse

/-- The scan of `bytes.IndexAny(s, chars)` for ASCII `chars`, at offset `i`. -/
def indexAnyFrom (chars : Bytes) : Bytes → Nat → Int
  | [], _ => -1
  | c :: cs, i => if chars.contains c then (i : Int) else indexAnyFrom chars cs (i + 1)

/-- `bytes.IndexAny(s, chars)` for ASCII `chars`. -/
def bytesIndexAny (s chars : Bytes) : Int := indexAnyFrom chars s 0

/-! ## `getNSRLFieldFromHashType` (lines 76-98) -/

/-- The names of the `case` clauses, in the order of the `switch`. -/
def hashTypeNames : List Bytes :=
  [ascii "sha1", ascii "md5", ascii "crc32", ascii "filename", ascii "filesize",
   ascii "productcode", ascii "opsystemcode", ascii "specialcode"]

/-- `getNSRLFieldFromHashType()` for the global `HashType`: the value returned and
the names reported by `log.Warn`. -/
def getNSRLFieldFromHashType (u : Unicode) (HashType : Bytes) : Int × List Bytes :=
  let t := stringsToLower u HashType
  if t = ascii "sha1" then (0, [])
  else if t = ascii "md5" then (1, [])
  else if t = ascii "crc32" then (2, [])
  else if t = ascii "filename" then (3, [])
  else if t = ascii "filesize" then (4, [])
  else if t = ascii "productcode" then (5, [])
  else if t = ascii "opsystemcode" then (6, [])
  else if t = ascii "specialcode" then (7, [])
  else (-1, [HashType])

/-! ## Record count encoding (`encoding/binary`, little endian) -/

/-- The conversion `byte(v)`. -/
def byte (v : Nat) : Nat := v % 256

/-- `binary.Write(buf, binary.LittleEndian, lines)` for `lines uint64`: the bytes
appended to `buf` (`PutUint64`: `b[i] = byte(v >> (8*i))`). -/
def putUint64LE (v : Nat) : Bytes :=
  [byte v, byte (v >>> 8), byte (v >>> 16), byte (v >>> 24),
   byte (v >>> 32), byte (v >>> 40), byte (v >>> 48), byte (v >>> 56)]

/-- `io.EOF`, returned by `binary.Read` when no byte can be read. -/
def errEOF : Nat := 0
/-- `io.ErrUnexpectedEOF`, returned by `binary.Read` for 1 to 7 bytes. -/
def errUnexpectedEOF : Nat := 1
/-- A missing file. -/
def errNotExist : Nat := 2

/-- `binary.LittleEndian.Uint64(b)`:
`uint64(b[0]) | uint64(b[1])<<8 | ... | uint64(b[7])<<56`. -/
def uint64LE : Bytes → Nat
  | [b0, b1, b2, b3, b4, b5, b6, b7] =>
    b0 ||| u64 (b1 <<< 8) ||| u64 (b2 <<< 16) ||| u64 (b3 <<< 24) ||| u64 (b4 <<< 32)
      ||| u64 (b5 <<< 40) ||| u64 (b6 <<< 48) ||| u64 (b7 <<< 56)
  | _ => 0

/-- `binary.Read(bytes.NewReader(data), binary.LittleEndian, &lines)`: eight bytes are
read with `io.ReadFull` and decoded. -/
def binaryReadUint64LE (data : Bytes) : Except Nat Nat :=
  if data.length = 0 then .error errEOF
  else if data.length < 8 then .error errUnexpectedEOF
  else .ok (uint64LE (data.take 8))

/-! ## The filter package -/

/-- The package `github.com/ip-rw/bloom` (filters `F`) and `strconv.ParseFloat`
(rates `R`). -/
structure Bloom (F R : Type) where
  /-- `strconv.ParseFloat(ErrorRate, 64)` -/
  parseFloat : Bytes → Except Nat R
  /-- `bloom.New(float64(lines), erate)` -/
  new : Nat → R → F
  /-- `filter.Add(key)` -/
  add : F → Bytes → F
  /-- `filter.Has(key)` -/
  has : F → Bytes → Bool
  /-- `filter.Marshal()` -/
  marshal : F → Bytes
  /-- `bloom.Unmarshal(f)` on a file with the given content -/
  unmarshal : Bytes → F

/-! ## `buildFilter` (lines 101-153) -/

/-- One call `record, err := reader.Read()` of the CSV reader before end of input. -/
inductive CsvRead where
  /-- a record and a nil error -/
  | record (fields : List Bytes)
  /-- an error other than `io.EOF` -/
  | error (e : Nat)
  deriving DecidableEq, Repr

/-- The index expression `record[i]` for an `int` index: `none` is the run-time panic. -/
def index (record : List Bytes) (i : Int) : Option Bytes :=
  if 0 ≤ i ∧ i < record.length then record.get? i.toNat else none

/-- The loop of lines 133-143 over the results the CSV reader still has to give;
after them `reader.Read()` returns `io.EOF`. -/
def insertLoop {F R : Type} (b : Bloom F R) (nsrlField : Int) : List CsvRead → F → Exec F
  | [], filter => .ok filter
  | .error e :: _, _ => .fatal e
  | .record record :: rest, filter =>
    match index record nsrlField with
    | none => .panic
    | some key => insertLoop b nsrlField rest (b.add filter key)

/-- The two artifacts in the directory `db`. -/
structure Disk where
  /-- the content of `LINECOUNT`, if the file exists -/
  lineCount : Option Bytes
  /-- the content of `nsrl.bloom`, if the file exists -/
  bloom : Option Bytes
  deriving DecidableEq, Repr

/-- What the operating system answers during one run of `buildFilter`. -/
structure BuildEnv where
  /-- the error of `os.Open` -/
  openErr : Option Nat
  /-- the reads of `NSRLFile.txt` by `lineCounter` -/
  reads : List ReadResult
  /-- the error of `ioutil.WriteFile` -/
  writeErr : Option Nat
  /-- the error of `nsrlDB.Seek` -/
  seekErr : Option Nat
  /-- the results of the CSV reader on `NSRLFile.txt`, header first -/
  csv : List CsvRead
  /-- the error of `os.Create` -/
  createErr : Option Nat

/-- The observable outcome of `buildFilter`. -/
structure BuildRun (F : Type) where
  /-- how the run ends -/
  exit : Exec Unit
  /-- the artifacts at that moment -/
  disk : Disk
  /-- the names reported by `log.Warn` -/
  warnings : List Bytes
  /-- the first argument of `bloom.New`, if it was called -/
  sizedFor : Option Nat
  /-- the filter written to `nsrl.bloom`, if the run got there -/
  filter : Option F

/-- `buildFilter(db)` with the globals `HashType` and `ErrorRate`. -/
def buildFilter {F R : Type} (u : Unicode) (b : Bloom F R) (HashType ErrorRate : Bytes)
    (env : BuildEnv) (disk : Disk) : BuildRun F :=
  let sel := getNSRLFieldFromHashType u HashType
  let nsrlField := sel.1
  let warnings := sel.2
  match env.openErr with
  | some e => ⟨.fatal e, disk, warnings, none, none⟩
  | none =>
  match lineCounter env.reads with
  | .panic => ⟨.panic, disk, warnings, none, none⟩
  | .fatal e => ⟨.fatal e, disk, warnings, none, none⟩
  | .ok (_, some e) => ⟨.fatal e, disk, warnings, none, none⟩
  | .ok (lines, none) =>
  let buf := putUint64LE lines
  match env.writeErr with
  | some e => ⟨.fatal e, disk, warnings, none, none⟩
  | none =>
  let disk := { disk with lineCount := some buf }
  match b.parseFloat ErrorRate with
  | .error e => ⟨.fatal e, disk, warnings, none, none⟩
  | .ok erate =>
  let filter := b.new lines erate
  match env.seekErr with
  | some e => ⟨.fatal e, disk, warnings, some lines, none⟩
  | none =>
  -- `_, _ = reader.Read()` drops the first result of the reader, whatever it is
  match insertLoop b nsrlField (env.csv.drop 1) filter with
  | .panic => ⟨.panic, disk, warnings, some lines, none⟩
  | .fatal e => ⟨.fatal e, disk, warnings, some lines, none⟩
  | .ok filter =>
  match env.createErr with
  | some e => ⟨.fatal e, disk, warnings, some lines, none⟩
  | none =>
  ⟨.ok (), { disk with bloom := some (b.marshal filter) }, warnings, some lines, some filter⟩

/-! ## `load` and `lookUp` (lines 156-178) -/

/-- `load(db)`. -/
def load {F R : Type} (b : Bloom F R) (disk : Disk) : Exec F :=
  match disk.lineCount with
  | none => .fatal errNotExist
  | some lineCount =>
  match binaryReadUint64LE lineCount with
  | .error e => .fatal e
  | .ok _ =>
  match disk.bloom with
  | none => .fatal errNotExist
  | some blob => .ok (b.unmarshal blob)

/-- The type `ResultsData`. -/
structure ResultsData where
  Found : Bool
  Hash : Bytes
  MarkDown : Bytes
  Filename : Bytes
  deriving DecidableEq, Repr

/-- `lookUp(filter, hash)`. -/
def lookUp {F R : Type} (b : Bloom F R) (filter : F) (hash : Bytes) : ResultsData :=
  let nsrlResults : ResultsData := ⟨false, [], [], []⟩
  { nsrlResults with Found := b.has filter hash }

/-! ## The `lookup` action (lines 223-249) -/

/-- What the `lookup` action has written so far. -/
structure LookupRun where
  /-- the objects printed on standard output, oldest first -/
  stdout : List ResultsData
  /-- the lines reported by `log.Warn`, oldest first -/
  warnings : List Bytes
  deriving DecidableEq, Repr

/-- The body of the loop of lines 230-247 for one `line := scanner.Bytes()`. -/
def lookupStep {F R : Type} (u : Unicode) (b : Bloom F R) (filter : F) (run : LookupRun)
    (line : Bytes) : LookupRun :=
  let i := bytesIndexAny line [9, 32]
  if i < 1 then
    { run with warnings := run.warnings ++ [line] }
  else
    let path := bytesTrimSpace u (line.drop i.toNat)
    let hash := bytesToUpper u (line.take i.toNat)
    let res := lookUp b filter hash
    let res := { res with Hash := hash }
    let res := { res with Filename := path }
    { run with stdout := run.stdout ++ [res] }

/-- The loop `for scanner.Scan()` over the lines the scanner yields. -/
def lookupLoop {F R : Type} (u : Unicode) (b : Bloom F R) (filter : F) :
    List Bytes → LookupRun → LookupRun
  | [], run => run
  | line :: rest, run => lookupLoop u b filter rest (lookupStep u b filter run line)

/-- Lines 225-248 of the `lookup` action once the scanner has cut its input: `load`,
then the loop over `lines`, the lines that `scanner.Scan()` delivers. -/
def lookupDelivered {F R : Type} (u : Unicode) (b : Bloom F R) (disk : Disk)
    (lines : List Bytes) : Exec LookupRun :=
  match load b disk with
  | .panic => .panic
  | .fatal e => .fatal e
  | .ok filter => .ok (lookupLoop u b filter lines ⟨[], []⟩)

/-- `bufio.MaxScanTokenSize`, the size up to which the buffer of a scanner made by
`bufio.NewScanner` grows: `64 * 1024`. -/
def maxScanTokenSize : Nat := 64 * 1024

/-- `dropCR(data)` of package `bufio`: one final carriage return is dropped. -/
def dropCR (data : Bytes) : Bytes :=
  if data.getLast? = some 13 then data.dropLast else data

/-- The lines `bufio.ScanLines` cuts from the bytes still to come, `cur` being the bytes
of the current line seen so far: each line ended by a newline, without that newline, and
at the end of the input the bytes after the last newline when there are any. -/
def rawLinesFrom : Bytes → Bytes → List Bytes
  | [], cur => if cur = [] then [] else [cur]
  | c :: rest, cur =>
    if c = 10 then cur :: rawLinesFrom rest [] else rawLinesFrom rest (cur ++ [c])

/-- The values of `scanner.Bytes()` in the successive rounds of `for scanner.Scan()`
(lines 224, 230, 231) when standard input delivers the bytes `stdin` and then
end-of-stream: the lines in order, each without its final carriage return, up to the
first line that does not fit the buffer together with its newline. There `Scan` returns
false with `bufio.ErrTooLong`, and the action never looks at `scanner.Err()`. -/
def scannerLines (stdin : Bytes) : List Bytes :=
  ((rawLinesFrom stdin []).takeWhile (fun l => decide (l.length < maxScanTokenSize))).map
    dropCR

/-- The `lookup` action (lines 223-249) when standard input delivers the bytes `stdin`
and then end-of-stream. -/
def lookupAction {F R : Type} (u : Unicode) (b : Bloom F R) (disk : Disk)
    (stdin : Bytes) : Exec LookupRun :=
  lookupDelivered u b disk (scannerLines stdin)

/-! ## Concrete instances of the library records -/

/-- Unicode tables that leave every non-ASCII input as it is. -/
def asciiOnly : Unicode := ⟨id, id, id⟩

/-- The bucket of a key in `bucketFilter`. -/
def bucket (key : Bytes) : Nat := key.sum % 16

/-- A filter with one hash function and sixteen buckets, held as the list of the
buckets that are set; it has false positives and is its own serialization. -/
def bucketFilter : Bloom (List Nat) Unit where
  parseFloat := fun _ => .ok ()
  new := fun _ _ => []
  add := fun f k => bucket k :: f
  has := fun f k => f.contains (bucket k)
  marshal := fun f => f
  unmarshal := fun blob => blob

/-- A filter that is the list of the keys passed to `Add`, oldest first; its
serialization is the list of the lengths of the keys followed by their bytes, and
reading one back gives the empty list: it is meant for builds only. -/
def traceFilter : Bloom (List Bytes) Unit where
  parseFloat := fun _ => .ok ()
  new := fun _ _ => []
  add := fun f k => f ++ [k]
  has := fun f k => f.contains k
  marshal := fun f => f.map List.length ++ f.flatten
  unmarshal := fun _ => []

/-- The lines of the dataset of the end-to-end scenario: the header and one row. -/
def exampleLines : List Bytes :=
  [ascii "SHA-1,MD5,CRC32,FileName,FileSize,ProductCode,OpSystemCode,SpecialCode",
   ascii "AAAA1111,0123,89AB,notepad.exe,1024,7,WIN,"]

/-- The records the CSV reader yields for `exampleLines`. -/
def exampleRecords : List (List Bytes) :=
  [[ascii "SHA-1", ascii "MD5", ascii "CRC32", ascii "FileName", ascii "FileSize",
    ascii "ProductCode", ascii "OpSystemCode", ascii "SpecialCode"],
   [ascii "AAAA1111", ascii "0123", ascii "89AB", ascii "notepad.exe", ascii "1024",
    ascii "7", ascii "WIN", []]]

/-- A run of `buildFilter` on `exampleLines` in which no system call fails: the file is
read in one chunk, then end-of-stream is reported with an empty chunk. -/
def exampleEnv : BuildEnv where
  openErr := none
  reads := goodReads [(exampleLines.map (fun row => row ++ [10])).flatten]
    ++ [⟨[], some .eof⟩]
  writeErr := none
  seekErr := none
  csv := exampleRecords.map .record
  createErr := none

/-- A directory without artifacts. -/
def emptyDisk : Disk := ⟨none, none⟩

/-- The artifacts of a build of the bucket filter on a one-line dataset with no data row:
the count 1 and the empty filter. -/
def loadableDisk : Disk := ⟨some (putUint64LE 1), some []⟩

/-- A valid query line of exactly 65536 bytes: `a`, a space, and 65534 times `b`. -/
def longLine : Bytes := 97 :: 32 :: List.replicate 65534 98

/-- Standard input with the three lines `a b`, `longLine` and `c d`, each ended by a
newline. -/
def longLineStdin : Bytes :=
  ([[97, 32, 98], longLine, [99, 32, 100]].map (fun l => l ++ [10])).flatten

/-! ## Vocabulary of the specification -/

/-- Position `i` holds the first space or tab of the line `s`. -/
def SepAt (s : Bytes) (i : Nat) : Prop :=
  (s[i]? = some 9 ∨ s[i]? = some 32) ∧ ∀ j, j < i → s[j]? ≠ some 9 ∧ s[j]? ≠ some 32

instance (s : Bytes) (i : Nat) : Decidable (SepAt s i) := by
  unfold SepAt
  infer_instance

/-- A valid query line: its first space or tab is at a position `>= 1`. -/
def ValidLine (s : Bytes) : Prop := ∃ i, i < s.length ∧ (1 ≤ i ∧ SepAt s i)

instance (s : Bytes) : Decidable (ValidLine s) := by
  unfold ValidLine
  infer_instance

/-- No byte of `s` is a space or a tab. -/
def NoSep (s : Bytes) : Prop := ∀ c ∈ s, c ≠ 9 ∧ c ≠ 32

/-- The filter never forgets: `Has` is true for every key passed to `Add` before. -/
def NoFalseNegatives {F R : Type} (b : Bloom F R) : Prop :=
  ∀ (f : F) (keys : List Bytes) (k : Bytes), k ∈ keys → b.has (keys.foldl b.add f) k = true

/-- The state of the `lookup` action before the first line. -/
def noOutput : LookupRun := ⟨[], []⟩

/-- The string `t` is `s` without its leading and trailing ASCII white space. -/
def TrimmedOf (s t : Bytes) : Prop :=
  ∃ pre suf, s = pre ++ t ++ suf ∧ (∀ c ∈ pre, asciiSpace c = true) ∧
    (∀ c ∈ suf, asciiSpace c = true) ∧ (∀ c, t.head? = some c → asciiSpace c = false) ∧
    (∀ c, t.getLast? = some c → asciiSpace c = false)

/-- What is used of the Unicode tables: upper-casing keeps a string non-empty and
makes no space or tab out of other bytes, and `TrimFunc` returns a sub-slice of its
argument. -/
def Unicode.Lawful (u : Unicode) : Prop :=
  (∀ s, s ≠ [] → NoSep s → u.mapToUpper s ≠ [] ∧ NoSep (u.mapToUpper s)) ∧
    (∀ s, ∃ pre suf, s = pre ++ u.trimFuncIsSpace s ++ suf)

/-! ## Theorems: `lineCounter` -/

theorem u64_of_lt {n : Nat} (h : n < 2 ^ 64) : u64 n = n := Nat.mod_eq_of_lt h

theorem u64_lt (n : Nat) : u64 n < 2 ^ 64 := Nat.mod_lt _ (by decide)

theorem u64_add_u64 (c a : Nat) : u64 (c + u64 a) = u64 (c + a) := by
  unfold u64
  omega

theorem u64_u64_add (c a : Nat) : u64 (u64 c + a) = u64 (c + a) := by
  unfold u64
  omega

/-- Reads without error are consumed one after the other, the count growing by the
newlines of each. -/
theorem lineCounterLoop_goodReads (pre : List Bytes) (rest : List ReadResult) (c : Nat)
    (hfit : ∀ d ∈ pre, d.length ≤ bufSize) (hc : c < 2 ^ 64) :
    lineCounterLoop (goodReads pre ++ rest) c
      = lineCounterLoop rest (u64 (c + pre.flatten.count 10)) := by
  induction pre generalizing c with
  | nil => simp [goodReads, u64_of_lt hc]
  | cons d ds ih =>
    have hd : ¬ bufSize < d.length := Nat.not_lt.mpr (hfit d (List.mem_cons_self _ _))
    have hds : ∀ x ∈ ds, x.length ≤ bufSize := fun x hx => hfit x (List.mem_cons_of_mem _ hx)
    have ih2 := ih (u64 (c + u64 (bytesCount d 10))) hds (u64_lt _)
    have hstep : lineCounterLoop (goodReads (d :: ds) ++ rest) c
        = lineCounterLoop (goodReads ds ++ rest) (u64 (c + u64 (bytesCount d 10))) := by
      show lineCounterLoop (⟨d, none⟩ :: (goodReads ds ++ rest)) c = _
      simp only [lineCounterLoop, hd, if_false]
    rw [hstep, ih2, u64_u64_add, List.flatten_cons, List.count_append, bytesCount]
    congr 1
    unfold u64
    omega

/-- A read with an error ends the loop, after its bytes have been counted. -/
theorem lineCounterLoop_stop (d : Bytes) (e : ReadErr) (rest : List ReadResult) (c : Nat)
    (hfit : d.length ≤ bufSize) :
    lineCounterLoop (⟨d, some e⟩ :: rest) c
      = .ok (u64 (c + d.count 10), match e with | .eof => none | .other x => some x) := by
  have hd : ¬ bufSize < d.length := Nat.not_lt.mpr hfit
  cases e <;> simp [lineCounterLoop, hd, u64_add_u64, bytesCount]

/-- The result on a script that is cut at its first read with an error. -/
theorem lineCounter_split (pre : List Bytes) (d : Bytes) (e : ReadErr)
    (rest : List ReadResult) (hfit : ∀ x ∈ d :: pre, x.length ≤ bufSize) :
    lineCounter (goodReads pre ++ ⟨d, some e⟩ :: rest)
      = .ok (u64 ((pre.flatten ++ d).count 10),
          match e with | .eof => none | .other x => some x) := by
  have h1 : ∀ x ∈ pre, x.length ≤ bufSize := fun x hx => hfit x (List.mem_cons_of_mem _ hx)
  have h2 : d.length ≤ bufSize := hfit d (List.mem_cons_self _ _)
  unfold lineCounter
  rw [lineCounterLoop_goodReads pre _ 0 h1 (by decide), lineCounterLoop_stop d e rest _ h2,
    u64_u64_add, Nat.zero_add, ← List.count_append]

/-- A script without any error is read to its end, which is end-of-stream. -/
theorem lineCounter_goodReads (pre : List Bytes) (hfit : ∀ x ∈ pre, x.length ≤ bufSize) :
    lineCounter (goodReads pre) = .ok (u64 (pre.flatten.count 10), none) := by
  have h := lineCounterLoop_goodReads pre [] 0 hfit (by decide)
  rw [List.append_nil] at h
  unfold lineCounter
  rw [h, Nat.zero_add, lineCounterLoop]

/-- Every script is reads without error followed by nothing or by a read with an error. -/
theorem script_split (script : List ReadResult) :
    script = goodReads (script.map (fun r => r.data)) ∨
      ∃ pre d e rest, script = goodReads pre ++ ⟨d, some e⟩ :: rest := by
  induction script with
  | nil => left; rfl
  | cons r rs ih =>
    obtain ⟨d, err⟩ := r
    cases err with
    | some e => right; exact ⟨[], d, e, rs, rfl⟩
    | none =>
      rcases ih with h | ⟨pre, d2, e, rest, h⟩
      · left
        simp only [goodReads, List.map_cons, List.map_map] at h ⊢
        rw [← h]
      · right
        refine ⟨d :: pre, d2, e, rest, ?_⟩
        rw [h]
        rfl

theorem goodReads_data (pre : List Bytes) :
    (goodReads pre).map (fun r => r.data) = pre := by
  simp [goodReads, Function.comp_def]

theorem goodReads_fit {pre : List Bytes} {d : Bytes} {e : ReadErr} {rest script : List ReadResult}
    (hs : script = goodReads pre ++ ⟨d, some e⟩ :: rest)
    (hfit : ∀ r ∈ script, r.data.length ≤ bufSize) :
    ∀ x ∈ d :: pre, x.length ≤ bufSize := by
  intro x hx
  rcases List.mem_cons.mp hx with rfl | hx
  · exact hfit ⟨x, some e⟩ (by rw [hs]; simp)
  · exact hfit ⟨x, none⟩ (by rw [hs]; simp [goodReads]; left; exact hx)

/-- C2: when a reader delivers a byte stream as chunks of at most 32 KiB (any of them
possibly empty) and reports end-of-stream with the last chunk, `lineCounter` returns no
error and the number of newline bytes of the concatenation of the chunks, as a `uint64`:
the exact number whenever it is below `2 ^ 64`; the result depends on the concatenation
only, not on the split into chunks, and bytes after the last newline (a final line
without newline) add nothing. -/
theorem lineCounter_counts_newlines (chunks : List Bytes) (last : Bytes)
    (hfit : ∀ c ∈ last :: chunks, c.length ≤ bufSize) :
    lineCounter (goodReads chunks ++ [⟨last, some .eof⟩])
        = .ok (u64 ((chunks.flatten ++ last).count 10), none) ∧
      ((chunks.flatten ++ last).count 10 < 2 ^ 64 →
        lineCounter (goodReads chunks ++ [⟨last, some .eof⟩])
          = .ok ((chunks.flatten ++ last).count 10, none)) ∧
      (∀ (chunks2 : List Bytes) (last2 : Bytes),
        (∀ c ∈ last2 :: chunks2, c.length ≤ bufSize) →
        chunks2.flatten ++ last2 = chunks.flatten ++ last →
        lineCounter (goodReads chunks2 ++ [⟨last2, some .eof⟩])
          = lineCounter (goodReads chunks ++ [⟨last, some .eof⟩])) ∧
      (∀ body tail : Bytes, chunks.flatten ++ last = body ++ tail → 10 ∉ tail →
        body.count 10 < 2 ^ 64 →
        lineCounter (goodReads chunks ++ [⟨last, some .eof⟩]) = .ok (body.count 10, none)) := by
  have h1 := lineCounter_split chunks last .eof [] hfit
  refine ⟨h1, ?_, ?_, ?_⟩
  · intro hrange
    rw [h1, u64_of_lt hrange]
  · intro chunks2 last2 hfit2 hcat
    have h2 := lineCounter_split chunks2 last2 .eof [] hfit2
    rw [h1, h2, hcat]
  · intro body tail hcat htail hrange
    rw [h1, hcat, List.count_append, List.count_eq_zero_of_not_mem htail, Nat.add_zero,
      u64_of_lt hrange]

/-- C2, at the stream `a\nb\nc` delivered as `a\nb`, `\n`, an empty chunk and `c` with
end-of-stream: two newlines, the final `c` is not counted. -/
theorem lineCounter_counts_newlines_witness :
    (∀ c ∈ ([99] : Bytes) :: [[97, 10, 98], [10], []], c.length ≤ bufSize) ∧
      lineCounter (goodReads [[97, 10, 98], [10], []] ++ [⟨[99], some .eof⟩])
        = .ok (2, none) :=
  ⟨by decide,
    (lineCounter_counts_newlines [[97, 10, 98], [10], []] [99] (by decide)).2.1 (by decide)⟩

/-- C9: on a script whose reads fit the buffer `lineCounter` always returns. When the
first read that reports an error reports one other than end-of-stream, it returns that
error together with the number (a `uint64`, exact below `2 ^ 64`) of newlines of all bytes
read up to and including that read, and reads nothing after it; when it reports
end-of-stream, the result has no error and the bytes that came with it are counted; and
an error is returned only in the first case. -/
theorem lineCounter_fails_iff (script : List ReadResult)
    (hfit : ∀ r ∈ script, r.data.length ≤ bufSize) :
    (∀ pre d e rest, script = goodReads pre ++ ⟨d, some (.other e)⟩ :: rest →
        lineCounter script = .ok (u64 ((pre.flatten ++ d).count 10), some e) ∧
        ((pre.flatten ++ d).count 10 < 2 ^ 64 →
          lineCounter script = .ok ((pre.flatten ++ d).count 10, some e))) ∧
      (∀ pre d rest, script = goodReads pre ++ ⟨d, some .eof⟩ :: rest →
        lineCounter script = .ok (u64 ((pre.flatten ++ d).count 10), none) ∧
        ((pre.flatten ++ d).count 10 < 2 ^ 64 →
          lineCounter script = .ok ((pre.flatten ++ d).count 10, none))) ∧
      (∀ n e, lineCounter script = .ok (n, some e) →
        ∃ pre d rest, script = goodReads pre ++ ⟨d, some (.other e)⟩ :: rest) ∧
      (∃ n err, lineCounter script = .ok (n, err)) := by
  have key : ∀ pre d e rest, script = goodReads pre ++ ⟨d, some e⟩ :: rest →
      lineCounter script
        = .ok (u64 ((pre.flatten ++ d).count 10),
            match e with | .eof => none | .other x => some x) := by
    intro pre d e rest hs
    have h := lineCounter_split pre d e rest (goodReads_fit hs hfit)
    rw [hs]
    exact h
  have good : script = goodReads (script.map (fun r => r.data)) →
      lineCounter script
        = .ok (u64 (((script.map (fun r => r.data)).flatten).count 10), none) := by
    intro hs
    have hfit2 : ∀ x ∈ script.map (fun r => r.data), x.length ≤ bufSize := by
      intro x hx
      obtain ⟨r, hr, rfl⟩ := List.mem_map.mp hx
      exact hfit r hr
    have h := lineCounter_goodReads (script.map (fun r => r.data)) hfit2
    rw [← hs] at h
    exact h
  refine ⟨fun pre d e rest hs => ⟨key pre d (.other e) rest hs, fun hr => ?_⟩,
    fun pre d rest hs => ⟨key pre d .eof rest hs, fun hr => ?_⟩, ?_, ?_⟩
  · rw [key pre d (.other e) rest hs, u64_of_lt hr]
  · rw [key pre d .eof rest hs, u64_of_lt hr]
  · intro n e hres
    rcases script_split script with hs | ⟨pre, d, e2, rest, hs⟩
    · rw [good hs] at hres
      cases hres
    · have h := key pre d e2 rest hs
      rw [h] at hres
      cases e2 with
      | eof => cases hres
      | other x =>
        simp only [Exec.ok.injEq, Prod.mk.injEq, Option.some.injEq] at hres
        exact ⟨pre, d, rest, by rw [hs, hres.2]⟩
  · rcases script_split script with hs | ⟨pre, d, e2, rest, hs⟩
    · exact ⟨_, _, good hs⟩
    · exact ⟨_, _, key pre d e2 rest hs⟩

/-- C9, at a script of the read `x\n`, the read `\ny` that fails with error 5, and a
read that is never performed: the error 5 is returned with the count 2. -/
theorem lineCounter_fails_iff_witness :
    (∀ r ∈ ([⟨[120, 10], none⟩, ⟨[10, 121], some (.other 5)⟩, ⟨[10], none⟩] : List ReadResult),
        r.data.length ≤ bufSize) ∧
      lineCounter [⟨[120, 10], none⟩, ⟨[10, 121], some (.other 5)⟩, ⟨[10], none⟩]
        = .ok (2, some 5) :=
  ⟨by decide,
    ((lineCounter_fails_iff [⟨[120, 10], none⟩, ⟨[10, 121], some (.other 5)⟩, ⟨[10], none⟩]
      (by decide)).1 [[120, 10]] [10, 121] 5 [⟨[10], none⟩] rfl).2 (by decide)⟩

/-! ## Theorems: the record count -/

theorem lor_shift (i s b : Nat) (hs : s < 2 ^ i) : s ||| (b <<< i) = s + b * 2 ^ i := by
  rw [Nat.shiftLeft_eq, Nat.lor_comm, Nat.mul_comm, ← Nat.mul_add_lt_is_or hs, Nat.add_comm]

theorem u64_shift (b i : Nat) (hb : b < 256) (hi : i ≤ 56) : u64 (b <<< i) = b <<< i := by
  apply Nat.mod_eq_of_lt
  rw [Nat.shiftLeft_eq]
  calc b * 2 ^ i < 256 * 2 ^ i := Nat.mul_lt_mul_of_pos_right hb (Nat.pow_pos (by decide))
    _ ≤ 256 * 2 ^ 56 := Nat.mul_le_mul_left _ (Nat.pow_le_pow_right (by decide) hi)
    _ = 2 ^ 64 := by norm_num

/-- On eight bytes the shifts and ors of `Uint64` are the positional sum. -/
theorem uint64LE_eq (b0 b1 b2 b3 b4 b5 b6 b7 : Nat) (h0 : b0 < 256) (h1 : b1 < 256)
    (h2 : b2 < 256) (h3 : b3 < 256) (h4 : b4 < 256) (h5 : b5 < 256) (h6 : b6 < 256)
    (h7 : b7 < 256) :
    uint64LE [b0, b1, b2, b3, b4, b5, b6, b7]
      = b0 + b1 * 2 ^ 8 + b2 * 2 ^ 16 + b3 * 2 ^ 24 + b4 * 2 ^ 32 + b5 * 2 ^ 40 + b6 * 2 ^ 48
        + b7 * 2 ^ 56 := by
  show b0 ||| u64 (b1 <<< 8) ||| u64 (b2 <<< 16) ||| u64 (b3 <<< 24) ||| u64 (b4 <<< 32)
      ||| u64 (b5 <<< 40) ||| u64 (b6 <<< 48) ||| u64 (b7 <<< 56) = _
  rw [u64_shift b1 8 h1 (by decide), u64_shift b2 16 h2 (by decide),
    u64_shift b3 24 h3 (by decide), u64_shift b4 32 h4 (by decide),
    u64_shift b5 40 h5 (by decide), u64_shift b6 48 h6 (by decide),
    u64_shift b7 56 h7 (by decide)]
  rw [lor_shift 8 b0 b1 (by norm_num; omega)]
  rw [lor_shift 16 _ b2 (by norm_num; omega)]
  rw [lor_shift 24 _ b3 (by norm_num; omega)]
  rw [lor_shift 32 _ b4 (by norm_num; omega)]
  rw [lor_shift 40 _ b5 (by norm_num; omega)]
  rw [lor_shift 48 _ b6 (by norm_num; omega)]
  rw [lor_shift 56 _ b7 (by norm_num; omega)]

theorem uint64LE_putUint64LE (n : Nat) (h : n < 2 ^ 64) : uint64LE (putUint64LE n) = n := by
  unfold putUint64LE byte
  rw [uint64LE_eq _ _ _ _ _ _ _ _ (Nat.mod_lt _ (by decide)) (Nat.mod_lt _ (by decide))
    (Nat.mod_lt _ (by decide)) (Nat.mod_lt _ (by decide)) (Nat.mod_lt _ (by decide))
    (Nat.mod_lt _ (by decide)) (Nat.mod_lt _ (by decide)) (Nat.mod_lt _ (by decide))]
  simp only [Nat.shiftRight_eq_div_pow]
  norm_num at h ⊢
  omega

theorem binaryRead_putUint64LE (n : Nat) (h : n < 2 ^ 64) :
    binaryReadUint64LE (putUint64LE n) = .ok n := by
  have hlen : (putUint64LE n).length = 8 := rfl
  have htake : (putUint64LE n).take 8 = putUint64LE n := rfl
  simp only [binaryReadUint64LE, hlen, htake, uint64LE_putUint64LE n h]
  rfl

/-- The count `lineCounter` returns is a `uint64`. -/
theorem lineCounterLoop_lt (script : List ReadResult) (c n : Nat) (err : Option Nat)
    (hc : c < 2 ^ 64) (h : lineCounterLoop script c = .ok (n, err)) : n < 2 ^ 64 := by
  induction script generalizing c with
  | nil =>
    simp only [lineCounterLoop, Exec.ok.injEq, Prod.mk.injEq] at h
    omega
  | cons r rs ih =>
    obtain ⟨d, e⟩ := r
    simp only [lineCounterLoop] at h
    split at h
    · cases h
    · rcases e with _ | _ | x
      · exact ih _ (u64_lt _) h
      · simp only [Exec.ok.injEq, Prod.mk.injEq] at h
        rw [← h.1]
        exact u64_lt _
      · simp only [Exec.ok.injEq, Prod.mk.injEq] at h
        rw [← h.1]
        exact u64_lt _

/-- Once the count is written, `LINECOUNT` holds its encoding until the run ends. -/
theorem buildFilter_lineCount {F R : Type} (u : Unicode) (b : Bloom F R)
    (HashType ErrorRate : Bytes) (env : BuildEnv) (disk : Disk) (n : Nat)
    (hopen : env.openErr = none) (hcount : lineCounter env.reads = .ok (n, none))
    (hwrite : env.writeErr = none) :
    (buildFilter u b HashType ErrorRate env disk).disk.lineCount = some (putUint64LE n) := by
  simp only [buildFilter, hopen, hcount, hwrite]
  cases b.parseFloat ErrorRate with
  | error e => rfl
  | ok erate =>
    simp only []
    cases env.seekErr with
    | some e => rfl
    | none =>
      simp only []
      cases insertLoop b (getNSRLFieldFromHashType u HashType).1 (env.csv.drop 1)
          (b.new n erate) with
      | panic => rfl
      | fatal e => rfl
      | ok f =>
        simp only []
        cases env.createErr <;> rfl

/-- C3: for every `uint64` value `n`, the encoding written to the count artifact has
exactly 8 bytes, byte `i` being `(n / 256^i) mod 256`; `buildFilter` writes exactly this
encoding of the count it obtained; and decoding it the way `load` does gives `n` back. -/
theorem recordCount_roundTrip (n : Nat) (hn : n < 2 ^ 64) :
    (putUint64LE n).length = 8 ∧
      (∀ i, i < 8 → (putUint64LE n)[i]? = some (n / 256 ^ i % 256)) ∧
      binaryReadUint64LE (putUint64LE n) = .ok n ∧
      (∀ {F R : Type} (u : Unicode) (b : Bloom F R) (HashType ErrorRate : Bytes)
        (env : BuildEnv) (disk : Disk),
        env.openErr = none → lineCounter env.reads = .ok (n, none) → env.writeErr = none →
        (buildFilter u b HashType ErrorRate env disk).disk.lineCount = some (putUint64LE n)) := by
  refine ⟨rfl, ?_, binaryRead_putUint64LE n hn, ?_⟩
  · intro i hi
    interval_cases i <;> simp [putUint64LE, byte, Nat.shiftRight_eq_div_pow]
  · intro F R u b HashType ErrorRate env disk h1 h2 h3
    exact buildFilter_lineCount u b HashType ErrorRate env disk n h1 h2 h3

/-- C3, at the count 258: the bytes are `02 01 00 00 00 00 00 00` and decode to 258. -/
theorem recordCount_roundTrip_witness :
    258 < 2 ^ 64 ∧ putUint64LE 258 = [2, 1, 0, 0, 0, 0, 0, 0] ∧
      binaryReadUint64LE (putUint64LE 258) = .ok 258 :=
  ⟨by decide, by decide, (recordCount_roundTrip 258 (by decide)).2.2.1⟩

/-! ## Theorems: the record selector -/

/-- The three facts of the selector, on the lower-cased name. -/
theorem getNSRLField_cases (u : Unicode) (s : Bytes) :
    (∀ i : Nat, i < 8 → ((getNSRLFieldFromHashType u s).1 = (i : Int)
        ↔ hashTypeNames[i]? = some (stringsToLower u s))) ∧
      ((getNSRLFieldFromHashType u s).1 = -1 ↔ stringsToLower u s ∉ hashTypeNames) ∧
      ((getNSRLFieldFromHashType u s).1 = -1 ∨
        (0 ≤ (getNSRLFieldFromHashType u s).1 ∧ (getNSRLFieldFromHashType u s).1 ≤ 7)) := by
  have e1 : ascii "sha1" = [115, 104, 97, 49] := rfl
  have e2 : ascii "md5" = [109, 100, 53] := rfl
  have e3 : ascii "crc32" = [99, 114, 99, 51, 50] := rfl
  have e4 : ascii "filename" = [102, 105, 108, 101, 110, 97, 109, 101] := rfl
  have e5 : ascii "filesize" = [102, 105, 108, 101, 115, 105, 122, 101] := rfl
  have e6 : ascii "productcode" = [112, 114, 111, 100, 117, 99, 116, 99, 111, 100, 101] := rfl
  have e7 : ascii "opsystemcode"
      = [111, 112, 115, 121, 115, 116, 101, 109, 99, 111, 100, 101] := rfl
  have e8 : ascii "specialcode" = [115, 112, 101, 99, 105, 97, 108, 99, 111, 100, 101] := rfl
  simp only [getNSRLFieldFromHashType, hashTypeNames, e1, e2, e3, e4, e5, e6, e7, e8]
  generalize stringsToLower u s = t
  by_cases h1 : t = [115, 104, 97, 49]
  · subst h1; exact ⟨fun i hi => by interval_cases i <;> simp, by simp, by simp⟩
  by_cases h2 : t = [109, 100, 53]
  · subst h2; exact ⟨fun i hi => by interval_cases i <;> simp, by simp, by simp⟩
  by_cases h3 : t = [99, 114, 99, 51, 50]
  · subst h3; exact ⟨fun i hi => by interval_cases i <;> simp, by simp, by simp⟩
  by_cases h4 : t = [102, 105, 108, 101, 110, 97, 109, 101]
  · subst h4; exact ⟨fun i hi => by interval_cases i <;> simp, by simp, by simp⟩
  by_cases h5 : t = [102, 105, 108, 101, 115, 105, 122, 101]
  · subst h5; exact ⟨fun i hi => by interval_cases i <;> simp, by simp, by simp⟩
  by_cases h6 : t = [112, 114, 111, 100, 117, 99, 116, 99, 111, 100, 101]
  · subst h6; exact ⟨fun i hi => by interval_cases i <;> simp, by simp, by simp⟩
  by_cases h7 : t = [111, 112, 115, 121, 115, 116, 101, 109, 99, 111, 100, 101]
  · subst h7; exact ⟨fun i hi => by interval_cases i <;> simp, by simp, by simp⟩
  by_cases h8 : t = [115, 112, 101, 99, 105, 97, 108, 99, 111, 100, 101]
  · subst h8; exact ⟨fun i hi => by interval_cases i <;> simp, by simp, by simp⟩
  simp only [if_neg h1, if_neg h2, if_neg h3, if_neg h4, if_neg h5, if_neg h6, if_neg h7,
    if_neg h8]
  refine ⟨fun i hi => ?_, ?_, Or.inl trivial⟩
  · have n1 := Ne.symm h1
    have n2 := Ne.symm h2
    have n3 := Ne.symm h3
    have n4 := Ne.symm h4
    have n5 := Ne.symm h5
    have n6 := Ne.symm h6
    have n7 := Ne.symm h7
    have n8 := Ne.symm h8
    interval_cases i
    · simpa using n1
    · simpa using n2
    · simpa using n3
    · simpa using n4
    · simpa using n5
    · simpa using n6
    · simpa using n7
    · simpa using n8
  · simp only [List.mem_cons, List.mem_singleton, List.not_mem_nil, or_false, true_iff, not_or]
    exact ⟨h1, h2, h3, h4, h5, h6, h7, h8⟩

/-- The value returned depends on the lower-cased name only. -/
theorem getNSRLField_congr (u : Unicode) (s t : Bytes)
    (h : stringsToLower u s = stringsToLower u t) :
    (getNSRLFieldFromHashType u s).1 = (getNSRLFieldFromHashType u t).1 := by
  simp only [getNSRLFieldFromHashType, h]
  split_ifs <;> rfl

/-- C4: for every hash kind name `s`, the selector returns `i` in `0..7` exactly when the
lowercase form of `s` is the `i`-th of the names sha1, md5, crc32, filename, filesize,
productcode, opsystemcode, specialcode, and `-1` exactly when it is none of them; the
result is always in `{-1, 0, ..., 7}`; the eight names give the constants
`sha1 .. specialCode`; and two ASCII names that differ in letter case only give the same
result. -/
theorem getNSRLFieldFromHashType_spec (u : Unicode) (s : Bytes) :
    (∀ i : Nat, i < 8 → ((getNSRLFieldFromHashType u s).1 = (i : Int)
        ↔ hashTypeNames[i]? = some (stringsToLower u s))) ∧
      ((getNSRLFieldFromHashType u s).1 = -1 ↔ stringsToLower u s ∉ hashTypeNames) ∧
      ((getNSRLFieldFromHashType u s).1 = -1 ∨
        (0 ≤ (getNSRLFieldFromHashType u s).1 ∧ (getNSRLFieldFromHashType u s).1 ≤ 7)) ∧
      hashTypeNames.map (fun name => (getNSRLFieldFromHashType u name).1)
        = [sha1, md5, crc32, fileName, fileSize, productCode, opSystemCode, specialCode] ∧
      (∀ t : Bytes, isASCII s = true → isASCII t = true → s.map lowerByte = t.map lowerByte →
        (getNSRLFieldFromHashType u s).1 = (getNSRLFieldFromHashType u t).1) := by
  obtain ⟨h1, h2, h3⟩ := getNSRLField_cases u s
  refine ⟨h1, h2, h3, rfl, ?_⟩
  intro t hs ht hst
  apply getNSRLField_congr
  simp only [stringsToLower, hs, ht, if_true, hst]

/-- C4, at the names `Md5` and `sha256`: column 1 without warning, and `-1` with a
warning. -/
theorem getNSRLFieldFromHashType_spec_witness :
    (getNSRLFieldFromHashType asciiOnly (ascii "Md5")).1 = 1 ∧
      getNSRLFieldFromHashType asciiOnly (ascii "Md5") = (1, []) ∧
      getNSRLFieldFromHashType asciiOnly (ascii "sha256") = (-1, [ascii "sha256"]) :=
  ⟨((getNSRLFieldFromHashType_spec asciiOnly (ascii "Md5")).1 1 (by decide)).mpr (by decide),
    by decide, by decide⟩

/-! ## Theorems: splitting a query line -/

theorem contains_sep (c : Nat) : ([9, 32] : Bytes).contains c = true ↔ (c = 9 ∨ c = 32) := by
  simp [List.contains]

theorem contains_sep_false (c : Nat) (h : c ≠ 9 ∧ c ≠ 32) : ([9, 32] : Bytes).contains c = false := by
  rw [← Bool.not_eq_true, contains_sep]
  exact fun h2 => h2.elim h.1 h.2

theorem indexAnyFrom_noSep (s : Bytes) (k : Nat) (h : NoSep s) : indexAnyFrom [9, 32] s k = -1 := by
  induction s generalizing k with
  | nil => rfl
  | cons c cs ih =>
    have hc := h c (List.mem_cons_self _ _)
    have hcs : NoSep cs := fun x hx => h x (List.mem_cons_of_mem _ hx)
    simp only [indexAnyFrom, contains_sep_false c hc]
    exact ih _ hcs

theorem indexAnyFrom_token (tok : Bytes) (sep : Nat) (rest : Bytes) (k : Nat) (h : NoSep tok)
    (hsep : sep = 9 ∨ sep = 32) :
    indexAnyFrom [9, 32] (tok ++ sep :: rest) k = ((k + tok.length : Nat) : Int) := by
  induction tok generalizing k with
  | nil =>
    simp only [List.nil_append, indexAnyFrom, (contains_sep sep).mpr hsep, if_true, List.length_nil,
      Nat.add_zero]
  | cons c cs ih =>
    have hc := h c (List.mem_cons_self _ _)
    have hcs : NoSep cs := fun x hx => h x (List.mem_cons_of_mem _ hx)
    have hstep : indexAnyFrom [9, 32] (c :: cs ++ sep :: rest) k
        = indexAnyFrom [9, 32] (cs ++ sep :: rest) (k + 1) := by
      show indexAnyFrom [9, 32] (c :: (cs ++ sep :: rest)) k = _
      simp only [indexAnyFrom, contains_sep_false c hc]
      rfl
    rw [hstep, ih _ hcs, List.length_cons]
    congr 1
    omega

/-- Every line has no separator or splits at its first one. -/
theorem line_split (s : Bytes) :
    NoSep s ∨ ∃ tok sep rest, s = tok ++ sep :: rest ∧ NoSep tok ∧ (sep = 9 ∨ sep = 32) := by
  induction s with
  | nil => left; intro c hc; cases hc
  | cons c cs ih =>
    by_cases hc : c = 9 ∨ c = 32
    · right; exact ⟨[], c, cs, rfl, fun x hx => absurd hx (List.not_mem_nil x), hc⟩
    · have hc2 : c ≠ 9 ∧ c ≠ 32 := ⟨fun h => hc (Or.inl h), fun h => hc (Or.inr h)⟩
      rcases ih with h | ⟨tok, sep, rest, h1, h2, h3⟩
      · left
        intro x hx
        rcases List.mem_cons.mp hx with rfl | hx
        · exact hc2
        · exact h x hx
      · right
        refine ⟨c :: tok, sep, rest, by rw [h1]; rfl, ?_, h3⟩
        intro x hx
        rcases List.mem_cons.mp hx with rfl | hx
        · exact hc2
        · exact h2 x hx

theorem sepAt_of_split (tok : Bytes) (sep : Nat) (rest : Bytes) (h : NoSep tok)
    (hsep : sep = 9 ∨ sep = 32) : SepAt (tok ++ sep :: rest) tok.length := by
  constructor
  · rw [List.getElem?_append_right (Nat.le_refl _)]
    simp only [Nat.sub_self, List.getElem?_cons_zero, Option.some.injEq]
    exact hsep
  · intro j hj
    rw [List.getElem?_append_left hj]
    have hm : tok[j] ∈ tok := List.getElem_mem _
    have := h _ hm
    rw [List.getElem?_eq_getElem hj]
    simp only [ne_eq, Option.some.injEq]
    exact this

theorem sepAt_unique (s : Bytes) (i j : Nat) (hi : SepAt s i) (hj : SepAt s j) : i = j := by
  rcases Nat.lt_trichotomy i j with h | h | h
  · have := hj.2 i h
    rcases hi.1 with h1 | h1
    · exact absurd h1 this.1
    · exact absurd h1 this.2
  · exact h
  · have := hi.2 j h
    rcases hj.1 with h1 | h1
    · exact absurd h1 this.1
    · exact absurd h1 this.2

theorem noSep_not_sepAt (s : Bytes) (i : Nat) (h : NoSep s) : ¬ SepAt s i := by
  intro hs
  have : ∀ c, s[i]? = some c → c ∈ s := fun c hc => by
    obtain ⟨hlt, hget⟩ := List.getElem?_eq_some_iff.mp hc
    rw [← hget]
    exact List.getElem_mem _
  rcases hs.1 with h1 | h1
  · exact (h 9 (this 9 h1)).1 rfl
  · exact (h 32 (this 32 h1)).2 rfl

/-- `bytes.IndexAny` finds the first space or tab. -/
theorem bytesIndexAny_sepAt (s : Bytes) (i : Nat) (h : SepAt s i) :
    bytesIndexAny s [9, 32] = (i : Int) ∧ s = s.take i ++ s.drop i ∧ NoSep (s.take i) ∧
      (s.take i).length = i := by
  rcases line_split s with hn | ⟨tok, sep, rest, h1, h2, h3⟩
  · exact absurd h (noSep_not_sepAt s i hn)
  · have hi : i = tok.length := by
      have := sepAt_of_split tok sep rest h2 h3
      rw [← h1] at this
      exact sepAt_unique s _ _ h this
    subst hi
    refine ⟨?_, (List.take_append_drop _ _).symm, ?_, ?_⟩
    · unfold bytesIndexAny
      rw [h1, indexAnyFrom_token tok sep rest 0 h2 h3, Nat.zero_add]
    · rw [h1, List.take_left]
      exact h2
    · rw [h1, List.take_left]

theorem bytesIndexAny_invalid (s : Bytes) (h : ¬ ValidLine s) : bytesIndexAny s [9, 32] < 1 := by
  rcases line_split s with hn | ⟨tok, sep, rest, h1, h2, h3⟩
  · unfold bytesIndexAny
    rw [indexAnyFrom_noSep s 0 hn]
    decide
  · have hs := sepAt_of_split tok sep rest h2 h3
    rw [← h1] at hs
    have hlen : tok.length < s.length := by
      rw [h1, List.length_append, List.length_cons]
      omega
    have h0 : tok.length = 0 := by
      by_contra hne
      exact h ⟨tok.length, hlen, Nat.one_le_iff_ne_zero.mpr hne, hs⟩
    rw [(bytesIndexAny_sepAt s _ hs).1, h0]
    decide

/-! ## Theorems: the lookup loop -/

theorem lookupStep_valid {F R : Type} (u : Unicode) (b : Bloom F R) (f : F) (run : LookupRun)
    (s : Bytes) (i : Nat) (hi : 1 ≤ i) (hs : SepAt s i) :
    lookupStep u b f run s
      = ⟨run.stdout ++ [⟨b.has f (bytesToUpper u (s.take i)), bytesToUpper u (s.take i), [],
          bytesTrimSpace u (s.drop i)⟩], run.warnings⟩ := by
  have h1 := (bytesIndexAny_sepAt s i hs).1
  have h2 : ¬ ((i : Int) < 1) := by omega
  simp only [lookupStep, h1, h2, if_false, Int.toNat_ofNat, lookUp]

theorem lookupStep_invalid {F R : Type} (u : Unicode) (b : Bloom F R) (f : F) (run : LookupRun)
    (s : Bytes) (hs : ¬ ValidLine s) :
    lookupStep u b f run s = ⟨run.stdout, run.warnings ++ [s]⟩ := by
  simp only [lookupStep, bytesIndexAny_invalid s hs, if_true]

/-- The step appends to what was written before and does not read it. -/
theorem lookupStep_append {F R : Type} (u : Unicode) (b : Bloom F R) (f : F) (run : LookupRun)
    (s : Bytes) :
    lookupStep u b f run s
      = ⟨run.stdout ++ (lookupStep u b f noOutput s).stdout,
          run.warnings ++ (lookupStep u b f noOutput s).warnings⟩ := by
  simp only [lookupStep, noOutput]
  split_ifs <;> simp

theorem lookupLoop_append_run {F R : Type} (u : Unicode) (b : Bloom F R) (f : F)
    (lines : List Bytes) (run : LookupRun) :
    lookupLoop u b f lines run
      = ⟨run.stdout ++ (lookupLoop u b f lines noOutput).stdout,
          run.warnings ++ (lookupLoop u b f lines noOutput).warnings⟩ := by
  induction lines generalizing run with
  | nil => simp [lookupLoop, noOutput]
  | cons l ls ih =>
    simp only [lookupLoop]
    rw [ih (lookupStep u b f run l), ih (lookupStep u b f noOutput l), lookupStep_append u b f run l]
    simp [List.append_assoc]

theorem lookupLoop_append {F R : Type} (u : Unicode) (b : Bloom F R) (f : F)
    (pre post : List Bytes) (run : LookupRun) :
    lookupLoop u b f (pre ++ post) run = lookupLoop u b f post (lookupLoop u b f pre run) := by
  induction pre generalizing run with
  | nil => rfl
  | cons l ls ih => exact ih _

theorem lookupLoop_single {F R : Type} (u : Unicode) (b : Bloom F R) (f : F) (s : Bytes) :
    lookupLoop u b f [s] noOutput = lookupStep u b f noOutput s := rfl

/-! ## Theorems: trimming and upper-casing -/

theorem trimScan_inr (s r : Bytes) (h : trimScan s = .inr r) :
    ∃ pre, s = pre ++ r ∧ (∀ c ∈ pre, asciiSpace c = true) ∧
      (∀ c, r.head? = some c → asciiSpace c = false) := by
  induction s with
  | nil =>
    simp only [trimScan, Sum.inr.injEq] at h
    subst h
    exact ⟨[], rfl, fun c hc => absurd hc (List.not_mem_nil c), fun c hc => by cases hc⟩
  | cons c cs ih =>
    simp only [trimScan] at h
    split_ifs at h with h1 h2
    · obtain ⟨pre, hp1, hp2, hp3⟩ := ih h
      refine ⟨c :: pre, by rw [hp1]; rfl, ?_, hp3⟩
      intro x hx
      rcases List.mem_cons.mp hx with rfl | hx
      · exact h2
      · exact hp2 x hx
    · simp only [Sum.inr.injEq] at h
      subst h
      refine ⟨[], rfl, fun c hc => absurd hc (List.not_mem_nil c), ?_⟩
      intro x hx
      simp only [List.head?_cons, Option.some.injEq] at hx
      subst hx
      simpa using h2

theorem trimScan_ascii (s : Bytes) (h : isASCII s = true) : ∃ r, trimScan s = .inr r := by
  induction s with
  | nil => exact ⟨[], rfl⟩
  | cons c cs ih =>
    simp only [isASCII, List.all_cons, Bool.and_eq_true, decide_eq_true_eq] at h
    have hc : ¬ 128 ≤ c := by omega
    simp only [trimScan, hc, if_false]
    split_ifs
    · exact ih (by simpa [isASCII] using h.2)
    · exact ⟨_, rfl⟩

theorem isASCII_append (a b : Bytes) : isASCII (a ++ b) = true ↔ isASCII a = true ∧ isASCII b = true := by
  simp [isASCII, List.all_append]

theorem isASCII_reverse (a : Bytes) : isASCII a.reverse = isASCII a := by
  simp [isASCII, List.all_reverse]

theorem bytesTrimSpace_ascii (u : Unicode) (s : Bytes) (h : isASCII s = true) :
    TrimmedOf s (bytesTrimSpace u s) := by
  obtain ⟨r, hr⟩ := trimScan_ascii s h
  obtain ⟨pre, hp1, hp2, hp3⟩ := trimScan_inr s r hr
  have hra : isASCII r = true := by
    rw [hp1] at h
    exact ((isASCII_append _ _).mp h).2
  obtain ⟨r2, hr2⟩ := trimScan_ascii r.reverse (by rw [isASCII_reverse]; exact hra)
  obtain ⟨pre2, hq1, hq2, hq3⟩ := trimScan_inr r.reverse r2 hr2
  have hres : bytesTrimSpace u s = r2.reverse := by
    simp only [bytesTrimSpace, hr, hr2]
  have hr' : r = r2.reverse ++ pre2.reverse := by
    have := congrArg List.reverse hq1
    simpa using this
  rw [hres]
  refine ⟨pre, pre2.reverse, ?_, hp2, ?_, ?_, ?_⟩
  · rw [List.append_assoc, ← hr', ← hp1]
  · intro c hc
    exact hq2 c (List.mem_reverse.mp hc)
  · intro c hc
    apply hp3 c
    rw [hr']
    cases hrev : r2.reverse with
    | nil => rw [hrev] at hc; cases hc
    | cons x xs =>
      rw [hrev] at hc
      simpa using hc
  · intro c hc
    apply hq3 c
    rw [List.getLast?_reverse] at hc
    exact hc

theorem upperByte_sep (c : Nat) (h : c ≠ 9 ∧ c ≠ 32) : upperByte c ≠ 9 ∧ upperByte c ≠ 32 := by
  unfold upperByte
  split_ifs <;> omega

theorem bytesToUpper_lawful (u : Unicode) (hu : u.Lawful) (s : Bytes) (hne : s ≠ [])
    (hs : NoSep s) : bytesToUpper u s ≠ [] ∧ NoSep (bytesToUpper u s) := by
  unfold bytesToUpper
  split_ifs
  · refine ⟨by simpa using hne, ?_⟩
    intro c hc
    obtain ⟨x, hx, rfl⟩ := List.mem_map.mp hc
    exact upperByte_sep x (hs x hx)
  · exact hu.1 s hne hs

theorem trimScan_suffix (s : Bytes) :
    ∃ pre, s = pre ++ (match trimScan s with | .inl r => r | .inr r => r) := by
  induction s with
  | nil => exact ⟨[], rfl⟩
  | cons c cs ih =>
    simp only [trimScan]
    split_ifs
    · exact ⟨[], rfl⟩
    · obtain ⟨pre, hp⟩ := ih
      exact ⟨c :: pre, by rw [List.cons_append, ← hp]⟩
    · exact ⟨[], rfl⟩

theorem bytesTrimSpace_infix (u : Unicode) (hu : u.Lawful) (s : Bytes) :
    ∃ pre suf, s = pre ++ bytesTrimSpace u s ++ suf := by
  obtain ⟨p1, hp1⟩ := trimScan_suffix s
  unfold bytesTrimSpace
  cases h1 : trimScan s with
  | inl r =>
    rw [h1] at hp1
    obtain ⟨a, c, hac⟩ := hu.2 r
    refine ⟨p1 ++ a, c, ?_⟩
    simp only at hp1 ⊢
    simp only [List.append_assoc]
    rw [hp1]
    congr 1
    simpa [List.append_assoc] using hac
  | inr r =>
    rw [h1] at hp1
    simp only at hp1 ⊢
    obtain ⟨p2, hp2⟩ := trimScan_suffix r.reverse
    cases h2 : trimScan r.reverse with
    | inl q =>
      rw [h2] at hp2
      simp only at hp2 ⊢
      have hr : r = q.reverse ++ p2.reverse := by
        have := congrArg List.reverse hp2
        simpa using this
      obtain ⟨a, c, hac⟩ := hu.2 q.reverse
      refine ⟨p1 ++ a, c ++ p2.reverse, ?_⟩
      rw [hp1, hr]
      simp only [List.append_assoc]
      congr 1
      conv_lhs => rw [hac]
      simp only [List.append_assoc]
    | inr q =>
      rw [h2] at hp2
      simp only at hp2 ⊢
      have hr : r = q.reverse ++ p2.reverse := by
        have := congrArg List.reverse hp2
        simpa using this
      refine ⟨p1, p2.reverse, ?_⟩
      rw [hp1, hr, List.append_assoc]

theorem asciiOnly_lawful : asciiOnly.Lawful :=
  ⟨fun _ hne hs => ⟨hne, hs⟩, fun s => ⟨[], [], by simp [asciiOnly]⟩⟩

/-- C6: for every accepted query line, with `i` the position of its first space or tab,
exactly one result is printed; its Hash is the upper-cased form of the first `i` bytes
(byte-wise ASCII upper-casing when they are ASCII), it is the very string tested against
the filter (Found is the answer of `Has` for it), it is not empty and holds no space or
tab; its Filename is `bytes.TrimSpace` of the line from position `i` on: a contiguous
part of that remainder, and for an ASCII remainder exactly the remainder without its
leading and trailing white space; MarkDown stays empty. -/
theorem lookup_result_fields {F R : Type} (u : Unicode) (b : Bloom F R) (f : F) (s : Bytes)
    (i : Nat) (hu : u.Lawful) (hi : 1 ≤ i) (hs : SepAt s i) :
    ∃ r, lookupLoop u b f [s] noOutput = ⟨[r], []⟩ ∧
      r.Hash = bytesToUpper u (s.take i) ∧
      r.Found = b.has f r.Hash ∧
      r.Hash ≠ [] ∧ NoSep r.Hash ∧
      (isASCII (s.take i) = true → r.Hash = (s.take i).map upperByte) ∧
      r.Filename = bytesTrimSpace u (s.drop i) ∧
      (∃ pre suf, s.drop i = pre ++ r.Filename ++ suf) ∧
      (isASCII (s.drop i) = true → TrimmedOf (s.drop i) r.Filename) ∧
      r.MarkDown = [] := by
  obtain ⟨-, -, h3, h4⟩ := bytesIndexAny_sepAt s i hs
  have hne : s.take i ≠ [] := by
    intro h
    rw [h] at h4
    simp at h4
    omega
  obtain ⟨hU1, hU2⟩ := bytesToUpper_lawful u hu (s.take i) hne h3
  refine ⟨⟨b.has f (bytesToUpper u (s.take i)), bytesToUpper u (s.take i), [],
    bytesTrimSpace u (s.drop i)⟩, ?_, rfl, rfl, hU1, hU2, ?_, rfl,
    bytesTrimSpace_infix u hu _, ?_, rfl⟩
  · rw [lookupLoop_single, lookupStep_valid u b f noOutput s i hi hs]
    rfl
  · intro ha
    simp only [bytesToUpper, ha, if_true]
  · intro ha
    exact bytesTrimSpace_ascii u _ ha

/-- C6, at the line `AAAA1111\tnotepad.exe`: hash `AAAA1111`, filename `notepad.exe`,
and Found is the answer of the filter for `AAAA1111` (false for the empty filter). -/
theorem lookup_result_fields_witness :
    asciiOnly.Lawful ∧ 1 ≤ 8 ∧ SepAt (ascii "AAAA1111\tnotepad.exe") 8 ∧
      (∃ r, lookupLoop asciiOnly bucketFilter [] [ascii "AAAA1111\tnotepad.exe"] noOutput
          = ⟨[r], []⟩ ∧ r.Hash = bytesToUpper asciiOnly ((ascii "AAAA1111\tnotepad.exe").take 8)) ∧
      lookupLoop asciiOnly bucketFilter [] [ascii "AAAA1111\tnotepad.exe"] noOutput
        = ⟨[⟨false, ascii "AAAA1111", [], ascii "notepad.exe"⟩], []⟩ :=
  ⟨asciiOnly_lawful, by decide, by decide,
    (lookup_result_fields asciiOnly bucketFilter [] (ascii "AAAA1111\tnotepad.exe") 8
      asciiOnly_lawful (by decide) (by decide)).imp (fun _ h => ⟨h.1, h.2.1⟩),
    by decide⟩

theorem lookupLoop_cons_stdout {F R : Type} (u : Unicode) (b : Bloom F R) (f : F) (s : Bytes)
    (rest : List Bytes) :
    lookupLoop u b f (s :: rest) noOutput
      = ⟨(lookupLoop u b f [s] noOutput).stdout ++ (lookupLoop u b f rest noOutput).stdout,
          (lookupLoop u b f [s] noOutput).warnings
            ++ (lookupLoop u b f rest noOutput).warnings⟩ := by
  show lookupLoop u b f rest (lookupStep u b f noOutput s) = _
  rw [lookupLoop_append_run, lookupLoop_single]

theorem lookupLoop_valid {F R : Type} (u : Unicode) (b : Bloom F R) (f : F) (s : Bytes)
    (h : ValidLine s) : ∃ r, lookupLoop u b f [s] noOutput = ⟨[r], []⟩ := by
  obtain ⟨i, -, hi, hs⟩ := h
  rw [lookupLoop_single, lookupStep_valid u b f noOutput s i hi hs]
  exact ⟨_, rfl⟩

theorem lookupLoop_invalid {F R : Type} (u : Unicode) (b : Bloom F R) (f : F) (s : Bytes)
    (h : ¬ ValidLine s) : lookupLoop u b f [s] noOutput = ⟨[], [s]⟩ := by
  rw [lookupLoop_single, lookupStep_invalid u b f noOutput s h]
  rfl

/-- The loop over the lines it is given: a valid line gives exactly one result and every
other line gives none (only a warning); the output of the whole list is the
concatenation, in order, of the outputs of its lines; the number of results is the
number of valid lines; the empty line, `NoSeparatorHere` and every line that starts with
a space or a tab are not valid. -/
theorem lookupLoop_results {F R : Type} (u : Unicode) (b : Bloom F R) (f : F)
    (lines : List Bytes) :
    (∀ s, ValidLine s → ∃ r, lookupLoop u b f [s] noOutput = ⟨[r], []⟩) ∧
      (∀ s, ¬ ValidLine s → lookupLoop u b f [s] noOutput = ⟨[], [s]⟩) ∧
      (lookupLoop u b f lines noOutput).stdout
        = (lines.map (fun s => (lookupLoop u b f [s] noOutput).stdout)).flatten ∧
      (lookupLoop u b f lines noOutput).stdout.length
        = (lines.filter (fun s => decide (ValidLine s))).length ∧
      (lookupLoop u b f lines noOutput).warnings
        = lines.filter (fun s => !decide (ValidLine s)) ∧
      (∀ pre post : List Bytes, (lookupLoop u b f (pre ++ post) noOutput).stdout
        = (lookupLoop u b f pre noOutput).stdout ++ (lookupLoop u b f post noOutput).stdout) ∧
      ¬ ValidLine [] ∧ ¬ ValidLine (ascii "NoSeparatorHere") ∧
      (∀ rest : Bytes, ¬ ValidLine (9 :: rest) ∧ ¬ ValidLine (32 :: rest)) := by
  refine ⟨lookupLoop_valid u b f, lookupLoop_invalid u b f, ?_, ?_, ?_, ?_, by decide, by decide,
    ?_⟩
  · induction lines with
    | nil => rfl
    | cons s rest ih =>
      rw [lookupLoop_cons_stdout, List.map_cons, List.flatten_cons, ← ih]
  · induction lines with
    | nil => rfl
    | cons s rest ih =>
      rw [lookupLoop_cons_stdout, List.filter_cons]
      simp only [List.length_append, ih]
      by_cases h : ValidLine s
      · obtain ⟨r, hr⟩ := lookupLoop_valid u b f s h
        simp [hr, h, Nat.add_comm]
      · simp [lookupLoop_invalid u b f s h, h]
  · induction lines with
    | nil => rfl
    | cons s rest ih =>
      rw [lookupLoop_cons_stdout, List.filter_cons]
      simp only [ih]
      by_cases h : ValidLine s
      · obtain ⟨r, hr⟩ := lookupLoop_valid u b f s h
        simp [hr, h]
      · simp [lookupLoop_invalid u b f s h, h]
  · intro pre post
    rw [lookupLoop_append, lookupLoop_append_run]
  · intro rest
    constructor
    · rintro ⟨i, -, hi, hs⟩
      have := (hs.2 0 (by omega)).1
      simp at this
    · rintro ⟨i, -, hi, hs⟩
      have := (hs.2 0 (by omega)).2
      simp at this

/-! ## Theorems: the scanner and the `lookup` action -/

/-- A line and its newline are cut off the front of the input. -/
theorem rawLinesFrom_line (l rest cur : Bytes) (h : 10 ∉ l) :
    rawLinesFrom (l ++ 10 :: rest) cur = (cur ++ l) :: rawLinesFrom rest [] := by
  induction l generalizing cur with
  | nil => simp [rawLinesFrom]
  | cons c cs ih =>
    have hc : c ≠ 10 := fun hc => h (by rw [hc]; exact List.mem_cons_self _ _)
    have hcs : 10 ∉ cs := fun hm => h (List.mem_cons_of_mem _ hm)
    show rawLinesFrom (c :: (cs ++ 10 :: rest)) cur = _
    simp only [rawLinesFrom, hc, if_false]
    rw [ih _ hcs, List.append_assoc]
    rfl

/-- An input of lines each ended by a newline is cut into these lines. -/
theorem rawLinesFrom_lines (lines : List Bytes) (h : ∀ l ∈ lines, 10 ∉ l) :
    rawLinesFrom ((lines.map (fun l => l ++ [10])).flatten) [] = lines := by
  induction lines with
  | nil => rfl
  | cons l ls ih =>
    have hl := h l (List.mem_cons_self _ _)
    have hls : ∀ x ∈ ls, 10 ∉ x := fun x hx => h x (List.mem_cons_of_mem _ hx)
    have hcat : ((l :: ls).map (fun l => l ++ [10])).flatten
        = l ++ 10 :: (ls.map (fun l => l ++ [10])).flatten := by
      simp
    rw [hcat, rawLinesFrom_line l _ [] hl, ih hls, List.nil_append]

/-- Lines that all fit the buffer are all delivered. -/
theorem scannerLines_short (lines : List Bytes) (hnl : ∀ l ∈ lines, 10 ∉ l)
    (hshort : ∀ l ∈ lines, l.length < maxScanTokenSize) :
    scannerLines ((lines.map (fun l => l ++ [10])).flatten) = lines.map dropCR := by
  unfold scannerLines
  rw [rawLinesFrom_lines lines hnl]
  congr 1
  rw [List.takeWhile_eq_self_iff]
  intro l hl
  simpa using hshort l hl

/-- A valid line is a non-empty token without space or tab, a space or tab, and a rest. -/
theorem validLine_iff_split (s : Bytes) :
    ValidLine s ↔ ∃ tok sep rest, s = tok ++ sep :: rest ∧ NoSep tok ∧ (sep = 9 ∨ sep = 32) ∧
      tok ≠ [] := by
  constructor
  · rintro ⟨i, -, hi, hs⟩
    rcases line_split s with hn | ⟨tok, sep, rest, h1, h2, h3⟩
    · exact absurd hs (noSep_not_sepAt s i hn)
    · have hs2 := sepAt_of_split tok sep rest h2 h3
      rw [← h1] at hs2
      have := sepAt_unique s _ _ hs hs2
      refine ⟨tok, sep, rest, h1, h2, h3, ?_⟩
      intro hnil
      rw [hnil] at this
      simp at this
      omega
  · rintro ⟨tok, sep, rest, h1, h2, h3, h4⟩
    have hs := sepAt_of_split tok sep rest h2 h3
    rw [← h1] at hs
    refine ⟨tok.length, ?_, ?_, hs⟩
    · rw [h1, List.length_append, List.length_cons]
      omega
    · exact Nat.one_le_iff_ne_zero.mpr (fun h0 => h4 (List.length_eq_zero.mp h0))

/-- Dropping the final carriage return does not change whether a line is valid. -/
theorem validLine_dropCR (s : Bytes) : ValidLine (dropCR s) ↔ ValidLine s := by
  unfold dropCR
  split_ifs with hcr
  · have hs : s = s.dropLast ++ [13] := by
      obtain ⟨ys, hy⟩ := List.getLast?_eq_some_iff.mp hcr
      rw [hy, List.dropLast_concat]
    rw [validLine_iff_split, validLine_iff_split]
    constructor
    · rintro ⟨tok, sep, rest, h1, h2, h3, h4⟩
      refine ⟨tok, sep, rest ++ [13], ?_, h2, h3, h4⟩
      rw [hs, h1]
      simp
    · rintro ⟨tok, sep, rest, h1, h2, h3, h4⟩
      have hrest : rest ≠ [] := by
        intro hnil
        rw [h1, hnil] at hcr
        simp at hcr
        omega
      refine ⟨tok, sep, rest.dropLast, ?_, h2, h3, h4⟩
      rw [h1, List.dropLast_append_of_ne_nil _ (by simp),
        List.dropLast_cons_of_ne_nil hrest]
  · rfl

/-- At the end of the input the bytes of an unfinished line are a line. -/
theorem rawLinesFrom_last (l cur : Bytes) (h : 10 ∉ l) (hne : cur ++ l ≠ []) :
    rawLinesFrom l cur = [cur ++ l] := by
  induction l generalizing cur with
  | nil =>
    rw [List.append_nil] at hne ⊢
    simp only [rawLinesFrom, hne, if_false]
  | cons c cs ih =>
    have hc : c ≠ 10 := fun hc => h (by rw [hc]; exact List.mem_cons_self _ _)
    have hcs : 10 ∉ cs := fun hm => h (List.mem_cons_of_mem _ hm)
    simp only [rawLinesFrom, hc, if_false]
    rw [ih _ hcs (by simp), List.append_assoc]
    rfl

/-- Bytes after the last newline are one more line. -/
theorem rawLinesFrom_lines_last (lines : List Bytes) (last : Bytes)
    (h : ∀ l ∈ lines, 10 ∉ l) (hlast : 10 ∉ last) (hne : last ≠ []) :
    rawLinesFrom ((lines.map (fun l => l ++ [10])).flatten ++ last) [] = lines ++ [last] := by
  induction lines with
  | nil => simpa using rawLinesFrom_last last [] hlast (by simpa using hne)
  | cons l ls ih =>
    have hl := h l (List.mem_cons_self _ _)
    have hls : ∀ x ∈ ls, 10 ∉ x := fun x hx => h x (List.mem_cons_of_mem _ hx)
    have hcat : ((l :: ls).map (fun l => l ++ [10])).flatten ++ last
        = l ++ 10 :: ((ls.map (fun l => l ++ [10])).flatten ++ last) := by
      simp
    rw [hcat, rawLinesFrom_line l _ [] hl, ih hls, List.nil_append]
    rfl

/-- After a successful `load` the action is the loop over what the scanner delivers. -/
theorem lookupAction_eq {F R : Type} (u : Unicode) (b : Bloom F R) (disk : Disk) (filter : F)
    (stdin : Bytes) (hload : load b disk = .ok filter) :
    lookupAction u b disk stdin = .ok (lookupLoop u b filter (scannerLines stdin) noOutput) := by
  simp only [lookupAction, lookupDelivered, hload]
  rfl

theorem filter_map_dropCR (lines : List Bytes) (p q : Bytes → Bool)
    (hpq : ∀ l, p (dropCR l) = q l) :
    (lines.map dropCR).filter p = (lines.filter q).map dropCR := by
  induction lines with
  | nil => rfl
  | cons l ls ih =>
    simp only [List.map_cons, List.filter_cons, hpq l]
    split_ifs <;> simp [ih]

/-- C5 (amended): when standard input holds a finite list of lines, each ended by a
newline and each shorter than 65536 bytes (the last one possibly without its newline),
the scanner delivers every line, without its final carriage return, and the `lookup`
action prints exactly one result for each line whose first space or tab is at a position
`>= 1` and none, only a warning, for every other line; the results are in the order of
their lines, a rejected line does not stop the lines after it, and the number of results
is the number of valid lines; the empty line, `NoSeparatorHere` and every line that
starts with a space or a tab are rejected. -/
theorem lookupAction_one_result_per_valid_line {F R : Type} (u : Unicode) (b : Bloom F R)
    (disk : Disk) (filter : F) (lines : List Bytes)
    (hload : load b disk = .ok filter)
    (hnl : ∀ l ∈ lines, 10 ∉ l)
    (hshort : ∀ l ∈ lines, l.length < maxScanTokenSize) :
    lookupAction u b disk ((lines.map (fun l => l ++ [10])).flatten)
        = .ok (lookupLoop u b filter (lines.map dropCR) noOutput) ∧
      (∀ last : Bytes, last ≠ [] → 10 ∉ last → last.length < maxScanTokenSize →
        lookupAction u b disk ((lines.map (fun l => l ++ [10])).flatten ++ last)
          = .ok (lookupLoop u b filter ((lines ++ [last]).map dropCR) noOutput)) ∧
      (lookupLoop u b filter (lines.map dropCR) noOutput).stdout
        = (lines.map (fun l => (lookupLoop u b filter [dropCR l] noOutput).stdout)).flatten ∧
      (∀ l, ValidLine l → ∃ r, lookupLoop u b filter [dropCR l] noOutput = ⟨[r], []⟩) ∧
      (∀ l, ¬ ValidLine l → lookupLoop u b filter [dropCR l] noOutput = ⟨[], [dropCR l]⟩) ∧
      (lookupLoop u b filter (lines.map dropCR) noOutput).stdout.length
        = (lines.filter (fun l => decide (ValidLine l))).length ∧
      (lookupLoop u b filter (lines.map dropCR) noOutput).warnings
        = (lines.filter (fun l => !decide (ValidLine l))).map dropCR ∧
      ¬ ValidLine [] ∧ ¬ ValidLine (ascii "NoSeparatorHere") ∧
      (∀ rest : Bytes, ¬ ValidLine (9 :: rest) ∧ ¬ ValidLine (32 :: rest)) := by
  obtain ⟨-, -, h3, h4, h5, -, h7, h8, h9⟩ :=
    lookupLoop_results u b filter (lines.map dropCR)
  have hfilter := filter_map_dropCR lines
  refine ⟨?_, ?_, ?_, ?_, ?_, ?_, ?_, h7, h8, h9⟩
  · rw [lookupAction_eq u b disk filter _ hload, scannerLines_short lines hnl hshort]
  · intro last hne hlast hlen
    rw [lookupAction_eq u b disk filter _ hload]
    congr 2
    unfold scannerLines
    rw [rawLinesFrom_lines_last lines last hnl hlast hne]
    congr 1
    rw [List.takeWhile_eq_self_iff]
    intro l hl
    rcases List.mem_append.mp hl with hl | hl
    · simpa using hshort l hl
    · rw [List.mem_singleton.mp hl]
      simpa using hlen
  · rw [h3, List.map_map]
    rfl
  · intro l hl
    exact lookupLoop_valid u b filter _ ((validLine_dropCR l).mpr hl)
  · intro l hl
    exact lookupLoop_invalid u b filter _ (fun h => hl ((validLine_dropCR l).mp h))
  · rw [h4, hfilter _ (fun l => decide (ValidLine l))
      (fun l => decide_eq_decide.mpr (validLine_dropCR l)), List.length_map]
  · rw [h5, hfilter _ (fun l => !decide (ValidLine l))
      (fun l => by rw [decide_eq_decide.mpr (validLine_dropCR l)])]

/-- C5 (amended), at the input `AAAA1111\tfile1.txt`, an empty line, `NoSeparatorHere`,
` x` and `bbbb2222 b.bin` with a carriage return, each ended by a newline: two results,
for the first and the last line, in that order, and three warnings. -/
theorem lookupAction_one_result_per_valid_line_witness :
    (load bucketFilter loadableDisk = .ok [] ∧
      (∀ l ∈ [ascii "AAAA1111\tfile1.txt", [], ascii "NoSeparatorHere", ascii " x",
          ascii "bbbb2222 b.bin\r"], 10 ∉ l) ∧
      (∀ l ∈ [ascii "AAAA1111\tfile1.txt", [], ascii "NoSeparatorHere", ascii " x",
          ascii "bbbb2222 b.bin\r"], l.length < maxScanTokenSize)) ∧
      lookupAction asciiOnly bucketFilter loadableDisk
          (([ascii "AAAA1111\tfile1.txt", [], ascii "NoSeparatorHere", ascii " x",
            ascii "bbbb2222 b.bin\r"].map (fun l => l ++ [10])).flatten)
        = .ok ⟨[⟨false, ascii "AAAA1111", [], ascii "file1.txt"⟩,
                ⟨false, ascii "BBBB2222", [], ascii "b.bin"⟩],
               [[], ascii "NoSeparatorHere", ascii " x"]⟩ :=
  ⟨⟨by decide, by decide, by decide⟩,
    (lookupAction_one_result_per_valid_line asciiOnly bucketFilter loadableDisk []
      [ascii "AAAA1111\tfile1.txt", [], ascii "NoSeparatorHere", ascii " x",
        ascii "bbbb2222 b.bin\r"] (by decide) (by decide) (by decide)).1.trans (by decide)⟩

theorem longLine_length : longLine.length = 65536 := by
  show (97 :: 32 :: List.replicate 65534 98).length = 65536
  rw [List.length_cons, List.length_cons, List.length_replicate]

theorem longLine_valid : ValidLine longLine :=
  (validLine_iff_split longLine).mpr
    ⟨[97], 32, List.replicate 65534 98, rfl, by intro c hc; simp at hc; omega, Or.inr rfl,
      by simp⟩

/-- Of the three lines of `longLineStdin` the scanner delivers the first only. -/
theorem scannerLines_longLineStdin : scannerLines longLineStdin = [[97, 32, 98]] := by
  have hnl : ∀ l ∈ [[97, 32, 98], longLine, [99, 32, 100]], 10 ∉ l := by
    intro l hl
    simp only [List.mem_cons, List.mem_singleton, List.not_mem_nil, or_false] at hl
    rcases hl with rfl | rfl | rfl
    · decide
    · intro h
      rcases List.mem_cons.mp h with h | h
      · exact absurd h (by decide)
      · rcases List.mem_cons.mp h with h | h
        · exact absurd h (by decide)
        · exact absurd (List.eq_of_mem_replicate h) (by decide)
    · decide
  unfold scannerLines longLineStdin
  rw [rawLinesFrom_lines _ hnl]
  have h1 : decide (([97, 32, 98] : Bytes).length < maxScanTokenSize) = true := by decide
  have h2 : decide (longLine.length < maxScanTokenSize) = false := by
    rw [longLine_length]
    decide
  simp only [List.takeWhile_cons, h1, h2, if_true, List.map_cons, List.map_nil]
  decide

/-- C5 (as stated) fails: standard input holds the three valid lines `a b`, a line of
65536 bytes and `c d`; the scanner delivers the first and stops at the second, so the
action prints one result, not three, and reports nothing. -/
theorem long_line_counterexample :
    ValidLine [97, 32, 98] ∧ ValidLine longLine ∧ ValidLine [99, 32, 100] ∧
      longLine.length = 65536 ∧
      lookupAction asciiOnly bucketFilter loadableDisk longLineStdin
        = .ok ⟨[⟨false, [65], [], [98]⟩], []⟩ := by
  refine ⟨by decide, longLine_valid, by decide, longLine_length, ?_⟩
  rw [lookupAction_eq asciiOnly bucketFilter loadableDisk [] _ (by decide),
    scannerLines_longLineStdin]
  decide

/-! ## Theorems: `buildFilter` -/

theorem index_ofNat (r : List Bytes) (c : Nat) (h : c < r.length) :
    index r (c : Int) = some (r.getD c []) := by
  have h1 : (0 : Int) ≤ (c : Int) ∧ (c : Int) < (r.length : Int) := by omega
  simp only [index, h1, and_self, if_true, Int.toNat_ofNat]
  rw [List.getD_eq_getElem?_getD, List.getElem?_eq_getElem h]
  simp

theorem index_neg (r : List Bytes) (c : Int) (h : c < 0) : index r c = none := by
  have h1 : ¬ ((0 : Int) ≤ c ∧ c < (r.length : Int)) := by omega
  simp only [index, h1, if_false]

/-- Over records that all have the column, the loop adds the column of each, in order. -/
theorem insertLoop_records {F R : Type} (b : Bloom F R) (c : Nat) (data : List (List Bytes))
    (f : F) (h : ∀ r ∈ data, c < r.length) :
    insertLoop b (c : Int) (data.map .record) f
      = .ok ((data.map (fun r => r.getD c [])).foldl b.add f) := by
  induction data generalizing f with
  | nil => rfl
  | cons r rs ih =>
    have hr := h r (List.mem_cons_self _ _)
    have hrs : ∀ x ∈ rs, c < x.length := fun x hx => h x (List.mem_cons_of_mem _ hx)
    simp only [List.map_cons, insertLoop, index_ofNat r c hr, List.foldl_cons]
    exact ih _ hrs

/-- A loop that ends normally has added the selected field of every record it met. -/
theorem insertLoop_ok {F R : Type} (b : Bloom F R) (c : Int) (rs : List CsvRead) (f0 f : F)
    (h : insertLoop b c rs f0 = .ok f) :
    ∃ keys : List Bytes, f = keys.foldl b.add f0 ∧
      ∀ fields K, CsvRead.record fields ∈ rs → index fields c = some K → K ∈ keys := by
  induction rs generalizing f0 with
  | nil =>
    simp only [insertLoop, Exec.ok.injEq] at h
    exact ⟨[], h.symm, fun _ _ hm => absurd hm (List.not_mem_nil _)⟩
  | cons r rs ih =>
    cases r with
    | error e => simp [insertLoop] at h
    | record fields =>
      simp only [insertLoop] at h
      cases hk : index fields c with
      | none => simp [hk] at h
      | some key =>
        simp only [hk] at h
        obtain ⟨keys, hf, hmem⟩ := ih _ h
        refine ⟨key :: keys, hf, ?_⟩
        intro fs K hm hK
        rcases List.mem_cons.mp hm with heq | hm
        · simp only [CsvRead.record.injEq] at heq
          subst heq
          rw [hk] at hK
          simp only [Option.some.injEq] at hK
          subst hK
          exact List.mem_cons_self _ _
        · exact List.mem_cons_of_mem _ (hmem fs K hm hK)

/-- A run without any failure. -/
theorem buildFilter_done {F R : Type} (u : Unicode) (b : Bloom F R) (HashType ErrorRate : Bytes)
    (env : BuildEnv) (disk : Disk) (lines : Nat) (erate : R) (f : F)
    (hopen : env.openErr = none) (hcount : lineCounter env.reads = .ok (lines, none))
    (hwrite : env.writeErr = none) (hrate : b.parseFloat ErrorRate = .ok erate)
    (hseek : env.seekErr = none)
    (hloop : insertLoop b (getNSRLFieldFromHashType u HashType).1 (env.csv.drop 1)
      (b.new lines erate) = .ok f)
    (hcreate : env.createErr = none) :
    buildFilter u b HashType ErrorRate env disk
      = ⟨.ok (), ⟨some (putUint64LE lines), some (b.marshal f)⟩,
          (getNSRLFieldFromHashType u HashType).2, some lines, some f⟩ := by
  simp only [buildFilter, hopen, hcount, hwrite, hrate, hseek, hloop, hcreate]

/-- A run that ends normally had no failure. -/
theorem buildFilter_done_inv {F R : Type} (u : Unicode) (b : Bloom F R)
    (HashType ErrorRate : Bytes) (env : BuildEnv) (disk : Disk)
    (h : (buildFilter u b HashType ErrorRate env disk).exit = .ok ()) :
    ∃ lines erate f, env.openErr = none ∧ lineCounter env.reads = .ok (lines, none) ∧
      env.writeErr = none ∧ b.parseFloat ErrorRate = .ok erate ∧ env.seekErr = none ∧
      insertLoop b (getNSRLFieldFromHashType u HashType).1 (env.csv.drop 1)
        (b.new lines erate) = .ok f ∧ env.createErr = none := by
  unfold buildFilter at h
  cases h1 : env.openErr with
  | some e => simp [-List.drop_one, h1] at h
  | none =>
  cases h2 : lineCounter env.reads with
  | panic => simp [-List.drop_one, h1, h2] at h
  | fatal e => simp [-List.drop_one, h1, h2] at h
  | ok res =>
  obtain ⟨lines, err⟩ := res
  cases err with
  | some e => simp [-List.drop_one, h1, h2] at h
  | none =>
  cases h3 : env.writeErr with
  | some e => simp [-List.drop_one, h1, h2, h3] at h
  | none =>
  cases h4 : b.parseFloat ErrorRate with
  | error e => simp [-List.drop_one, h1, h2, h3, h4] at h
  | ok erate =>
  cases h5 : env.seekErr with
  | some e => simp [-List.drop_one, h1, h2, h3, h4, h5] at h
  | none =>
  cases h6 : insertLoop b (getNSRLFieldFromHashType u HashType).1 (env.csv.drop 1)
      (b.new lines erate) with
  | panic => simp [-List.drop_one, h1, h2, h3, h4, h5, h6] at h
  | fatal e => simp [-List.drop_one, h1, h2, h3, h4, h5, h6] at h
  | ok f =>
  cases h7 : env.createErr with
  | some e => simp [-List.drop_one, h1, h2, h3, h4, h5, h6, h7] at h
  | none => exact ⟨lines, erate, f, rfl, rfl, rfl, rfl, rfl, h6, rfl⟩

/-- The value that sizes the filter is the value written to `LINECOUNT`. -/
theorem buildFilter_sizedFor {F R : Type} (u : Unicode) (b : Bloom F R)
    (HashType ErrorRate : Bytes) (env : BuildEnv) (disk : Disk) (n : Nat)
    (h : (buildFilter u b HashType ErrorRate env disk).sizedFor = some n) :
    (buildFilter u b HashType ErrorRate env disk).disk.lineCount = some (putUint64LE n) := by
  unfold buildFilter at h ⊢
  cases h1 : env.openErr with
  | some e => simp [-List.drop_one, h1] at h
  | none =>
  cases h2 : lineCounter env.reads with
  | panic => simp [-List.drop_one, h1, h2] at h
  | fatal e => simp [-List.drop_one, h1, h2] at h
  | ok res =>
  obtain ⟨lines, err⟩ := res
  cases err with
  | some e => simp [-List.drop_one, h1, h2] at h
  | none =>
  cases h3 : env.writeErr with
  | some e => simp [-List.drop_one, h1, h2, h3] at h
  | none =>
  cases h4 : b.parseFloat ErrorRate with
  | error e => simp [-List.drop_one, h1, h2, h3, h4] at h
  | ok erate =>
  cases h5 : env.seekErr with
  | some e => simp [-List.drop_one, h1, h2, h3, h4, h5] at h ⊢; rw [h]
  | none =>
  cases h6 : insertLoop b (getNSRLFieldFromHashType u HashType).1 (env.csv.drop 1)
      (b.new lines erate) with
  | panic => simp [-List.drop_one, h1, h2, h3, h4, h5, h6] at h ⊢; rw [h]
  | fatal e => simp [-List.drop_one, h1, h2, h3, h4, h5, h6] at h ⊢; rw [h]
  | ok f =>
  cases h7 : env.createErr with
  | some e => simp [-List.drop_one, h1, h2, h3, h4, h5, h6, h7] at h ⊢; rw [h]
  | none => simp [-List.drop_one, h1, h2, h3, h4, h5, h6, h7] at h ⊢; rw [h]

/-- C7: when the CSV reader yields the records `header :: data`, the kind is supported
with column index `c`, every data record has a field `c` and no system call fails,
`buildFilter` completes and the filter it writes is the fresh filter after one `Add` per
data record, in order, of field `c` of that record as it was read; with the filter that
records its `Add` calls, the keys added are exactly those fields, one per data row, and
the header is not among the calls. -/
theorem buildFilter_inserts_data_rows {F R : Type} (u : Unicode) (b : Bloom F R)
    (HashType ErrorRate : Bytes) (env : BuildEnv) (disk : Disk) (c lines : Nat) (erate : R)
    (header : List Bytes) (data : List (List Bytes))
    (hkind : (getNSRLFieldFromHashType u HashType).1 = (c : Int))
    (hcsv : env.csv = (header :: data).map .record)
    (hfields : ∀ r ∈ data, c < r.length)
    (hopen : env.openErr = none) (hcount : lineCounter env.reads = .ok (lines, none))
    (hwrite : env.writeErr = none) (hrate : b.parseFloat ErrorRate = .ok erate)
    (hseek : env.seekErr = none) (hcreate : env.createErr = none) :
    (buildFilter u b HashType ErrorRate env disk).exit = .ok () ∧
      (buildFilter u b HashType ErrorRate env disk).filter
        = some ((data.map (fun r => r.getD c [])).foldl b.add (b.new lines erate)) ∧
      (buildFilter u traceFilter HashType ErrorRate env disk).filter
        = some (data.map (fun r => r.getD c [])) ∧
      ((buildFilter u traceFilter HashType ErrorRate env disk).filter.map List.length
        = some data.length) := by
  have hdrop : env.csv.drop 1 = data.map .record := by rw [hcsv]; rfl
  have hloop : ∀ {F2 R2 : Type} (b2 : Bloom F2 R2) (f0 : F2),
      insertLoop b2 (getNSRLFieldFromHashType u HashType).1 (env.csv.drop 1) f0
        = .ok ((data.map (fun r => r.getD c [])).foldl b2.add f0) := by
    intro F2 R2 b2 f0
    rw [hkind, hdrop]
    exact insertLoop_records b2 c data f0 hfields
  have h1 := buildFilter_done u b HashType ErrorRate env disk lines erate _ hopen hcount hwrite
    hrate hseek (hloop b _) hcreate
  have h2 := buildFilter_done u traceFilter HashType ErrorRate env disk lines () _ hopen hcount
    hwrite rfl hseek (hloop traceFilter _) hcreate
  have htrace : ∀ (keys f0 : List Bytes), keys.foldl traceFilter.add f0 = f0 ++ keys := by
    intro keys
    induction keys with
    | nil => intro f0; simp
    | cons k ks ih =>
      intro f0
      rw [List.foldl_cons, ih]
      simp [traceFilter]
  rw [h1, h2, htrace]
  refine ⟨rfl, rfl, ?_, ?_⟩
  · show some ([] ++ _) = _
    rw [List.nil_append]
  · show Option.map List.length (some ([] ++ _)) = _
    simp

/-- A file of rows each ended by a newline has as many newlines as rows. -/
theorem count_rows (rows : List Bytes) (h : ∀ row ∈ rows, 10 ∉ row) :
    ((rows.map (fun row => row ++ [10])).flatten).count 10 = rows.length := by
  induction rows with
  | nil => rfl
  | cons r rs ih =>
    have hr := h r (List.mem_cons_self _ _)
    have hrs : ∀ x ∈ rs, 10 ∉ x := fun x hx => h x (List.mem_cons_of_mem _ hx)
    rw [List.map_cons, List.flatten_cons, List.count_append, List.count_append, ih hrs,
      List.count_eq_zero_of_not_mem hr]
    simp
    omega

/-- C8: for a dataset of `M + 1` rows (the header and `M` data rows), each ended by a
newline and none holding a newline, read in any chunks, for which the CSV reader yields
one record per row, a run without failure writes the encoding of `M + 1` to the count
artifact, sizes the filter with the same `M + 1`, and adds `M` keys, no more than the
size; and in every run the value that sizes the filter is the value in the count
artifact. -/
theorem recordCount_is_raw_line_count {F R : Type} (u : Unicode) (b : Bloom F R)
    (HashType ErrorRate : Bytes) (env : BuildEnv) (disk : Disk) (c M : Nat) (erate : R)
    (rows chunks : List Bytes) (last : Bytes) (records : List (List Bytes))
    (hrows : ∀ row ∈ rows, 10 ∉ row) (hM : rows.length = M + 1) (hrange : M + 1 < 2 ^ 64)
    (hfit : ∀ x ∈ last :: chunks, x.length ≤ bufSize)
    (hfile : chunks.flatten ++ last = (rows.map (fun row => row ++ [10])).flatten)
    (hreads : env.reads = goodReads chunks ++ [⟨last, some .eof⟩])
    (hcsv : env.csv = records.map .record) (hone : records.length = rows.length)
    (hkind : (getNSRLFieldFromHashType u HashType).1 = (c : Int))
    (hfields : ∀ r ∈ records.drop 1, c < r.length)
    (hopen : env.openErr = none) (hwrite : env.writeErr = none)
    (hrate : b.parseFloat ErrorRate = .ok erate) (hseek : env.seekErr = none)
    (hcreate : env.createErr = none) :
    (∃ keys : List Bytes, keys.length = M ∧ keys.length ≤ M + 1 ∧
      buildFilter u b HashType ErrorRate env disk
        = ⟨.ok (), ⟨some (putUint64LE (M + 1)),
              some (b.marshal (keys.foldl b.add (b.new (M + 1) erate)))⟩,
            (getNSRLFieldFromHashType u HashType).2, some (M + 1),
            some (keys.foldl b.add (b.new (M + 1) erate))⟩) ∧
      (∀ (env2 : BuildEnv) (disk2 : Disk) (n : Nat),
        (buildFilter u b HashType ErrorRate env2 disk2).sizedFor = some n →
        (buildFilter u b HashType ErrorRate env2 disk2).disk.lineCount
          = some (putUint64LE n)) := by
  refine ⟨?_, fun env2 disk2 n h => buildFilter_sizedFor u b HashType ErrorRate env2 disk2 n h⟩
  have hcnt : (chunks.flatten ++ last).count 10 = M + 1 := by
    rw [hfile, count_rows rows hrows, hM]
  have hcount : lineCounter env.reads = .ok (M + 1, none) := by
    rw [hreads, ← hcnt]
    have hsplit := lineCounter_split chunks last .eof [] hfit
    rw [u64_of_lt (by rw [hcnt]; exact hrange)] at hsplit
    exact hsplit
  have hloop : insertLoop b (getNSRLFieldFromHashType u HashType).1 (env.csv.drop 1)
      (b.new (M + 1) erate)
      = .ok (((records.drop 1).map (fun r => r.getD c [])).foldl b.add (b.new (M + 1) erate)) := by
    rw [hkind, hcsv, ← List.map_drop]
    exact insertLoop_records b c _ _ hfields
  refine ⟨(records.drop 1).map (fun r => r.getD c []), ?_, ?_, ?_⟩
  · rw [List.length_map, List.length_drop, hone, hM]
    omega
  · rw [List.length_map, List.length_drop, hone, hM]
    omega
  · exact buildFilter_done u b HashType ErrorRate env disk (M + 1) erate _ hopen hcount hwrite
      hrate hseek hloop hcreate

/-- C7, on the example dataset with the kind `FileName` (column 3): the one key added is
`notepad.exe`, in lower case as in the file; the header field `FileName` is not added. -/
theorem buildFilter_inserts_data_rows_witness :
    ((getNSRLFieldFromHashType asciiOnly (ascii "FileName")).1 = ((3 : Nat) : Int) ∧
      exampleEnv.csv = (exampleRecords.headD [] :: exampleRecords.drop 1).map .record ∧
      (∀ r ∈ exampleRecords.drop 1, 3 < r.length) ∧
      exampleEnv.openErr = none ∧ lineCounter exampleEnv.reads = .ok (2, none) ∧
      exampleEnv.writeErr = none ∧ bucketFilter.parseFloat (ascii "0.001") = .ok () ∧
      exampleEnv.seekErr = none ∧ exampleEnv.createErr = none) ∧
      (buildFilter asciiOnly traceFilter (ascii "FileName") (ascii "0.001") exampleEnv
        emptyDisk).filter = some [ascii "notepad.exe"] :=
  ⟨⟨by decide, by decide, by decide, rfl, by decide, rfl, rfl, rfl, rfl⟩,
    (buildFilter_inserts_data_rows asciiOnly bucketFilter (ascii "FileName") (ascii "0.001")
      exampleEnv emptyDisk 3 2 () (exampleRecords.headD []) (exampleRecords.drop 1)
      (by decide) (by decide) (by decide) rfl (by decide) rfl rfl rfl rfl).2.2.1⟩

/-- C8, on the example dataset (`M = 1`): the count artifact holds 2, the filter is sized
for 2, one key is added. -/
theorem recordCount_is_raw_line_count_witness :
    ((∀ row ∈ exampleLines, 10 ∉ row) ∧ exampleLines.length = 1 + 1 ∧ 1 + 1 < 2 ^ 64 ∧
      (∀ x ∈ ([] : Bytes) :: [(exampleLines.map (fun row => row ++ [10])).flatten],
        x.length ≤ bufSize) ∧
      exampleEnv.csv = exampleRecords.map .record ∧
      exampleRecords.length = exampleLines.length ∧
      (getNSRLFieldFromHashType asciiOnly (ascii "sha1")).1 = ((0 : Nat) : Int) ∧
      (∀ r ∈ exampleRecords.drop 1, 0 < r.length)) ∧
      (∃ keys : List Bytes, keys.length = 1 ∧ keys.length ≤ 1 + 1 ∧
        buildFilter asciiOnly traceFilter (ascii "sha1") (ascii "0.001") exampleEnv emptyDisk
          = ⟨.ok (), ⟨some (putUint64LE (1 + 1)),
                some (traceFilter.marshal (keys.foldl traceFilter.add (traceFilter.new (1 + 1) ())))⟩,
              (getNSRLFieldFromHashType asciiOnly (ascii "sha1")).2, some (1 + 1),
              some (keys.foldl traceFilter.add (traceFilter.new (1 + 1) ()))⟩) ∧
      (buildFilter asciiOnly traceFilter (ascii "sha1") (ascii "0.001") exampleEnv
        emptyDisk).disk = ⟨some [2, 0, 0, 0, 0, 0, 0, 0], some [8, 65, 65, 65, 65, 49, 49, 49, 49]⟩ ∧
      (buildFilter asciiOnly traceFilter (ascii "sha1") (ascii "0.001") exampleEnv
        emptyDisk).sizedFor = some 2 ∧
      (buildFilter asciiOnly traceFilter (ascii "sha1") (ascii "0.001") exampleEnv
        emptyDisk).filter = some [ascii "AAAA1111"] :=
  ⟨⟨by decide, rfl, by decide, by decide, rfl, rfl, by decide, by decide⟩,
    (recordCount_is_raw_line_count asciiOnly traceFilter (ascii "sha1") (ascii "0.001")
      exampleEnv emptyDisk 0 1 () exampleLines
      [(exampleLines.map (fun row => row ++ [10])).flatten] [] exampleRecords
      (by decide) rfl (by decide) (by decide) (by simp) rfl rfl rfl (by decide) (by decide)
      rfl rfl rfl rfl rfl).1, by decide, by decide, by decide⟩

/-! ## Theorems: no false negatives, unsupported kinds -/

/-- A bucket that is set, or that a later key sets, is set at the end. -/
theorem bucketFilter_foldl_mem (keys : List Bytes) (f : List Nat) (x : Nat)
    (h : x ∈ f ∨ ∃ k ∈ keys, bucket k = x) : x ∈ keys.foldl bucketFilter.add f := by
  induction keys generalizing f with
  | nil =>
    rcases h with h | ⟨k, hk, -⟩
    · exact h
    · exact absurd hk (List.not_mem_nil _)
  | cons a as ih =>
    rw [List.foldl_cons]
    apply ih
    rcases h with h | ⟨k, hk, hx⟩
    · left; exact List.mem_cons_of_mem _ h
    · rcases List.mem_cons.mp hk with rfl | hk
      · left; rw [← hx]; exact List.mem_cons_self _ _
      · right; exact ⟨k, hk, hx⟩

theorem bucketFilter_noFalseNegatives : NoFalseNegatives bucketFilter := by
  intro f keys k hk
  show (keys.foldl bucketFilter.add f).contains (bucket k) = true
  apply List.elem_eq_true_of_mem
  exact bucketFilter_foldl_mem keys f (bucket k) (Or.inr ⟨k, hk, rfl⟩)

/-- After a completed build `load` returns the deserialized filter. -/
theorem load_after_build {F R : Type} (b : Bloom F R) (lines : Nat) (blob : Bytes) :
    load b ⟨some (putUint64LE lines), some blob⟩ = .ok (b.unmarshal blob) := by
  have hlen : (putUint64LE lines).length = 8 := rfl
  simp only [load, binaryReadUint64LE, hlen]
  rfl

/-- C1: assume `Has` is true for every key passed to `Add` before. For every run of
`buildFilter` that completes and every key `K` its insertion loop adds (the selected
field of a record read after the header), `lookUp` on the built filter returns
Found = true for `K`; a query line whose hash token is `K` after upper-casing gives
exactly one result, with hash `K` and Found = true; and the same holds when such a line
is delivered to the loop after `load` of the artifacts the build left on disk, when
serialization keeps the answers of the filter. -/
theorem no_false_negatives {F R : Type} (u : Unicode) (b : Bloom F R)
    (HashType ErrorRate : Bytes) (env : BuildEnv) (disk : Disk) (filter : F)
    (fields : List Bytes) (K : Bytes)
    (hfilter : NoFalseNegatives b)
    (hdone : (buildFilter u b HashType ErrorRate env disk).exit = .ok ())
    (hbuilt : (buildFilter u b HashType ErrorRate env disk).filter = some filter)
    (hrow : CsvRead.record fields ∈ env.csv.drop 1)
    (hkey : index fields (getNSRLFieldFromHashType u HashType).1 = some K) :
    (lookUp b filter K).Found = true ∧
      (∀ (s : Bytes) (i : Nat), 1 ≤ i → SepAt s i → bytesToUpper u (s.take i) = K →
        ∃ r, lookupLoop u b filter [s] noOutput = ⟨[r], []⟩ ∧ r.Hash = K ∧ r.Found = true) ∧
      ((∀ (g : F) (k : Bytes), b.has (b.unmarshal (b.marshal g)) k = b.has g k) →
        ∀ (s : Bytes) (i : Nat), 1 ≤ i → SepAt s i → bytesToUpper u (s.take i) = K →
        ∃ r, lookupDelivered u b (buildFilter u b HashType ErrorRate env disk).disk [s]
            = .ok ⟨[r], []⟩ ∧ r.Hash = K ∧ r.Found = true) := by
  obtain ⟨lines, erate, f, h1, h2, h3, h4, h5, h6, h7⟩ :=
    buildFilter_done_inv u b HashType ErrorRate env disk hdone
  have hrun := buildFilter_done u b HashType ErrorRate env disk lines erate f h1 h2 h3 h4 h5 h6 h7
  have hf : f = filter := by
    rw [hrun] at hbuilt
    simpa using hbuilt
  subst hf
  obtain ⟨keys, hkeys, hmem⟩ := insertLoop_ok b _ _ _ _ h6
  have hK : K ∈ keys := hmem fields K hrow hkey
  have hhas : b.has f K = true := by
    rw [hkeys]
    exact hfilter _ keys K hK
  refine ⟨hhas, ?_, ?_⟩
  · intro s i hi hs hup
    refine ⟨⟨b.has f (bytesToUpper u (s.take i)), bytesToUpper u (s.take i), [],
      bytesTrimSpace u (s.drop i)⟩, ?_, hup, ?_⟩
    · rw [lookupLoop_single, lookupStep_valid u b f noOutput s i hi hs]
      rfl
    · show b.has f (bytesToUpper u (s.take i)) = true
      rw [hup]
      exact hhas
  · intro hrt s i hi hs hup
    refine ⟨⟨b.has (b.unmarshal (b.marshal f)) (bytesToUpper u (s.take i)),
      bytesToUpper u (s.take i), [], bytesTrimSpace u (s.drop i)⟩, ?_, hup, ?_⟩
    · rw [hrun]
      show lookupDelivered u b ⟨some (putUint64LE lines), some (b.marshal f)⟩ [s] = _
      unfold lookupDelivered
      rw [load_after_build]
      show Exec.ok (lookupLoop u b (b.unmarshal (b.marshal f)) [s] noOutput) = _
      rw [lookupLoop_single, lookupStep_valid u b _ noOutput s i hi hs]
      rfl
    · show b.has (b.unmarshal (b.marshal f)) (bytesToUpper u (s.take i)) = true
      rw [hrt, hup]
      exact hhas

/-- C10 (amended): for an unsupported hash kind name the selector warns once and returns
`-1`, which is no column index; `buildFilter` is not stopped by it: it keeps the
warning, writes the count artifact as for any kind, and on a dataset without data rows
it completes with the fresh, empty filter. -/
theorem unsupported_kind_proceeds {F R : Type} (u : Unicode) (b : Bloom F R)
    (HashType ErrorRate : Bytes) (env : BuildEnv) (disk : Disk)
    (hbad : stringsToLower u HashType ∉ hashTypeNames) :
    getNSRLFieldFromHashType u HashType = (-1, [HashType]) ∧
      (buildFilter u b HashType ErrorRate env disk).warnings = [HashType] ∧
      (∀ lines, env.openErr = none → lineCounter env.reads = .ok (lines, none) →
        env.writeErr = none →
        (buildFilter u b HashType ErrorRate env disk).disk.lineCount
          = some (putUint64LE lines)) ∧
      (∀ lines erate, env.csv.length ≤ 1 → env.openErr = none →
        lineCounter env.reads = .ok (lines, none) → env.writeErr = none →
        b.parseFloat ErrorRate = .ok erate → env.seekErr = none → env.createErr = none →
        (buildFilter u b HashType ErrorRate env disk).exit = .ok () ∧
          (buildFilter u b HashType ErrorRate env disk).filter = some (b.new lines erate)) := by
  have hsel1 : (getNSRLFieldFromHashType u HashType).1 = -1 :=
    (getNSRLField_cases u HashType).2.1.mpr hbad
  have hsel : getNSRLFieldFromHashType u HashType = (-1, [HashType]) := by
    unfold getNSRLFieldFromHashType at hsel1 ⊢
    simp only at hsel1 ⊢
    split_ifs at hsel1 ⊢
    rfl
  have hwarn : (buildFilter u b HashType ErrorRate env disk).warnings
      = (getNSRLFieldFromHashType u HashType).2 := by
    unfold buildFilter
    cases env.openErr with
    | some e => rfl
    | none =>
    simp only []
    cases lineCounter env.reads with
    | panic => rfl
    | fatal e => rfl
    | ok res =>
    obtain ⟨lines, err⟩ := res
    cases err with
    | some e => rfl
    | none =>
    simp only []
    cases env.writeErr with
    | some e => rfl
    | none =>
    simp only []
    cases b.parseFloat ErrorRate with
    | error e => rfl
    | ok erate =>
    simp only []
    cases env.seekErr with
    | some e => rfl
    | none =>
    simp only []
    cases insertLoop b (getNSRLFieldFromHashType u HashType).1 (env.csv.drop 1)
        (b.new lines erate) with
    | panic => rfl
    | fatal e => rfl
    | ok f =>
    simp only []
    cases env.createErr <;> rfl
  refine ⟨hsel, by rw [hwarn, hsel], ?_, ?_⟩
  · intro lines h1 h2 h3
    exact buildFilter_lineCount u b HashType ErrorRate env disk lines h1 h2 h3
  · intro lines erate hlen h1 h2 h3 h4 h5 h7
    have hdrop : env.csv.drop 1 = [] := by
      apply List.drop_eq_nil_of_le
      exact hlen
    have h6 : insertLoop b (getNSRLFieldFromHashType u HashType).1 (env.csv.drop 1)
        (b.new lines erate) = .ok (b.new lines erate) := by
      rw [hdrop]
      rfl
    rw [buildFilter_done u b HashType ErrorRate env disk lines erate _ h1 h2 h3 h4 h5 h6 h7]
    exact ⟨rfl, rfl⟩

/-- C10 (as stated) fails: with the unsupported kind `sha256` and the example dataset,
which has one data row, the selector returns `-1`, and the run of `buildFilter` does not
complete; it ends in the index panic of `record[-1]` and writes no filter. -/
theorem unsupported_kind_counterexample :
    (getNSRLFieldFromHashType asciiOnly (ascii "sha256")).1 = -1 ∧
      exampleEnv.csv = exampleRecords.map .record ∧ exampleRecords.length = 2 ∧
      (buildFilter asciiOnly traceFilter (ascii "sha256") (ascii "0.001") exampleEnv
        emptyDisk).exit = .panic ∧
      (buildFilter asciiOnly traceFilter (ascii "sha256") (ascii "0.001") exampleEnv
        emptyDisk).exit ≠ .ok () ∧
      (buildFilter asciiOnly traceFilter (ascii "sha256") (ascii "0.001") exampleEnv
        emptyDisk).filter = none := by
  refine ⟨by decide, rfl, rfl, by decide, by decide, by decide⟩

/-- C1, on the end-to-end scenario: built from the example dataset with kind `sha1`, the
bucket filter holds the key `AAAA1111`; `lookUp` finds it, and the query line
`AAAA1111\tnotepad.exe` read against the artifacts on disk gives found = true,
hash `AAAA1111`, filename `notepad.exe`. -/
theorem no_false_negatives_witness :
    (NoFalseNegatives bucketFilter ∧
      (buildFilter asciiOnly bucketFilter (ascii "sha1") (ascii "0.001") exampleEnv
        emptyDisk).exit = .ok () ∧
      (buildFilter asciiOnly bucketFilter (ascii "sha1") (ascii "0.001") exampleEnv
        emptyDisk).filter = some [bucket (ascii "AAAA1111")] ∧
      CsvRead.record (exampleRecords.getD 1 []) ∈ exampleEnv.csv.drop 1 ∧
      index (exampleRecords.getD 1 []) (getNSRLFieldFromHashType asciiOnly (ascii "sha1")).1
        = some (ascii "AAAA1111")) ∧
      (lookUp bucketFilter [bucket (ascii "AAAA1111")] (ascii "AAAA1111")).Found = true ∧
      lookupDelivered asciiOnly bucketFilter
          (buildFilter asciiOnly bucketFilter (ascii "sha1") (ascii "0.001") exampleEnv
            emptyDisk).disk [ascii "AAAA1111\tnotepad.exe"]
        = .ok ⟨[⟨true, ascii "AAAA1111", [], ascii "notepad.exe"⟩], []⟩ :=
  ⟨⟨bucketFilter_noFalseNegatives, by decide, by decide, by decide, by decide⟩,
    (no_false_negatives asciiOnly bucketFilter (ascii "sha1") (ascii "0.001") exampleEnv
      emptyDisk [bucket (ascii "AAAA1111")] (exampleRecords.getD 1 []) (ascii "AAAA1111")
      bucketFilter_noFalseNegatives (by decide) (by decide) (by decide) (by decide)).1,
    by decide⟩

/-- C10 (amended), at the unsupported kind `sha256` and a dataset that is only the
header: one warning, index `-1`, and the build completes with the empty filter. -/
theorem unsupported_kind_proceeds_witness :
    stringsToLower asciiOnly (ascii "sha256") ∉ hashTypeNames ∧
      getNSRLFieldFromHashType asciiOnly (ascii "sha256") = (-1, [ascii "sha256"]) ∧
      (buildFilter asciiOnly traceFilter (ascii "sha256") (ascii "0.001")
        ⟨none, [⟨exampleLines.headD [] ++ [10], some .eof⟩], none, none,
          [.record (exampleRecords.headD [])], none⟩ emptyDisk).filter = some [] :=
  ⟨by decide,
    (unsupported_kind_proceeds asciiOnly traceFilter (ascii "sha256") (ascii "0.001")
      ⟨none, [⟨exampleLines.headD [] ++ [10], some .eof⟩], none, none,
        [.record (exampleRecords.headD [])], none⟩ emptyDisk (by decide)).1,
    by decide⟩

end Nsrl
